import Mathlib

/-!
# ToreroServe: a verification development

Shallow embedding of `src/torero-serve.cpp` and `src/BoundedBuffer.cpp`.

* A C++ `std::string` is a list of characters (`Str`); every byte is one `Char`.
* `std::getline` on a `std::stringstream` is the function `getline`, which returns the
  extracted token together with the unread rest of the stream.
* `std::regex_match` is `regex_match`, a derivative matcher over the syntax tree of the
  ECMAScript pattern, proved equal to membership in the language of the pattern.
* The request handler is modelled in two layers. A `Run` lists the calls of `sendData` and
  `close` that a piece of code makes, in order, and tells how the code ends when every call of
  `sendData` returns. `sendData` itself is modelled against a transport that tells, for every
  call of `send`, what it returns. `Run.perform` puts the two together: it runs the calls of a
  `Run` on a transport, where a call of `sendData` may deliver other bytes than it was given, may
  throw, or may not return, and gives the bytes on the connection and the calls of `close`
  really made.
* The array that `fileToBuffer` allocates on the stack of the worker thread is modelled by a
  parameter `stack`, the number of bytes such an array may hold.
* The critical sections of `BoundedBuffer` are atomic steps on the pair capacity, queue.
-/

namespace ToreroServe

/-- A C++ byte string. -/
abbrev Str := List Char

/-! ## `std::getline` -/

/-- The call `getline(stream, out, delim)` on a stream whose unread content is `s`: the token is
the run of characters before the first `delim`; the delimiter is consumed and not stored. The
second component is the content still unread afterwards. On an exhausted stream the token is
empty (the output strings of the source are all initialised empty). -/
def getline (s : Str) (delim : Char) : Str × Str :=
  (s.takeWhile (fun c => c != delim), (s.dropWhile (fun c => c != delim)).drop 1)

/-! ## Regular expressions (`std::regex`, ECMAScript grammar) -/

/-- One item of a bracket expression: a single character or a range. -/
inductive ClassItem where
  | single (c : Char)
  | range (lo hi : Char)

/-- Does the character belong to the item? -/
def ClassItem.test : ClassItem → Char → Bool
  | .single c, x => x == c
  | .range lo hi, x => decide (lo ≤ x) && decide (x ≤ hi)

/-- Syntax of the patterns used by the server. `none` and `alt` do not occur in the source
pattern; they are needed to express derivatives. -/
inductive Regex where
  | none
  | eps
  | chr (c : Char)
  | cls (items : List ClassItem)
  | seq (r s : Regex)
  | alt (r s : Regex)
  | star (r : Regex)

namespace Regex

/-- The literal string `s` as a pattern. -/
def lit : Str → Regex
  | [] => eps
  | c :: cs => seq (chr c) (lit cs)

/-- Concatenation of a list of patterns, in order. -/
def cat : List Regex → Regex
  | [] => eps
  | r :: rs => seq r (cat rs)

/-- Does the bracket expression accept the character? -/
def classTest (items : List ClassItem) (x : Char) : Bool :=
  items.any (fun i => i.test x)

/-- Does the pattern match the empty string? -/
def nullable : Regex → Bool
  | none => false
  | eps => true
  | chr _ => false
  | cls _ => false
  | seq r s => nullable r && nullable s
  | alt r s => nullable r || nullable s
  | star _ => true

/-- Brzozowski derivative of a pattern by one character. -/
def deriv : Regex → Char → Regex
  | none, _ => none
  | eps, _ => none
  | chr c, a => if a = c then eps else none
  | cls items, a => if classTest items a then eps else none
  | seq r s, a => if nullable r then alt (seq (deriv r a) s) (deriv s a) else seq (deriv r a) s
  | alt r s, a => alt (deriv r a) (deriv s a)
  | star r, a => seq (deriv r a) (star r)

/-- The set of strings a pattern denotes. -/
def lang : Regex → Language Char
  | none => 0
  | eps => 1
  | chr c => {[c]}
  | cls items => {w | ∃ c, w = [c] ∧ classTest items c = true}
  | seq r s => lang r * lang s
  | alt r s => lang r + lang s
  | star r => KStar.kstar (lang r)

end Regex

/-- The call `std::regex_match(s, m, re)`: true exactly when the whole of `s` matches `re`. -/
def regex_match (s : Str) (re : Regex) : Bool :=
  (s.foldl Regex.deriv re).nullable

/-! ## Request parsing (`torero-serve.cpp`) -/

/-- The bracket expression `[a-zA-Z0-9_\-\.]` of the request pattern. -/
def targetClass : List ClassItem :=
  [.range 'a' 'z', .range 'A' 'Z', .range '0' '9', .single '_', .single '-', .single '.']

/-- The bracket expression `[0-9]`. -/
def digitClass : List ClassItem := [.range '0' '9']

/-- The pattern of line 353:
`GET ([ ]*(/[a-zA-Z0-9_\-\.]*)*)[ ]*HTTP/([0-9])\.([0-9])[\r\n]*`. -/
def http_request_regex : Regex :=
  Regex.cat
    [ Regex.lit "GET ".toList,
      Regex.seq (Regex.star (Regex.cls [.single ' ']))
        (Regex.star (Regex.seq (Regex.chr '/') (Regex.star (Regex.cls targetClass)))),
      Regex.star (Regex.cls [.single ' ']),
      Regex.lit "HTTP/".toList,
      Regex.cls digitClass,
      Regex.chr '.',
      Regex.cls digitClass,
      Regex.star (Regex.cls [.single '\r', .single '\n']) ]

/-- The function `regexFormatCorrect` (lines 348-358): the first line of the request, read with
`getline(reader, requestLine, '\n')`, is matched as a whole against the pattern. -/
def regexFormatCorrect (request : Str) : Bool :=
  let requestLine := (getline request '\n').1
  regex_match requestLine http_request_regex

/-- The function `getFileRequest` (lines 302-315): the second token of the request when it is cut
at space characters. -/
def getFileRequest (request_string : Str) : Str :=
  let check1 := getline request_string ' '
  let fileRequest := getline check1.2 ' '
  fileRequest.1

/-- The function `getFileExtension` (lines 322-336): the second token of the name when it is cut at
dots. -/
def getFileExtension (filename : Str) : Str :=
  let reader := getline filename '.'
  let extension := getline reader.2 '.'
  extension.1

/-! ## Machine integers -/

/-- Conversion to a 32-bit `int` (two's complement wrap-around). -/
def wrapInt32 (x : Int) : Int := (x + 2147483648) % 4294967296 - 2147483648

/-- The call `std::to_string(int)`: decimal rendering, with a minus sign when negative. -/
def to_string (n : Int) : Str := (toString n).toList

/-! ## `sendData` against a transport -/

/-- How a call of `sendData` ends: it returns, or `std::system_error` is thrown. In both cases
`wire` is everything the transport has taken, in call order. -/
inductive SendResult where
  | returned (wire : Str)
  | threw (wire : Str)
  deriving DecidableEq, Repr

/-- The loop of `sendData` (lines 112-124). `send k n` is the value returned by the `k`-th call
`send(socked_fd, data, data_length, 0)` when it is offered `n` bytes; every call offers the
buffer from its first byte, so a call returning `m` puts the first `m` bytes of `data` on the
wire. `call` counts the calls made so far, `totalBytesSent` is the local of the same name and
`wire` collects what the transport took. The first argument bounds the number of iterations:
`none` means that the loop is still running when the bound is reached. -/
def sendDataLoop (send : Nat → Nat → Int) (data : Str) :
    Nat → Nat → Int → Str → Option SendResult
  | 0, _, _, _ => none
  | fuel + 1, call, totalBytesSent, wire =>
    if totalBytesSent ≠ wrapInt32 data.length then
      let sent := send call data.length
      let num_bytes_sent := wrapInt32 sent
      let totalBytesSent := wrapInt32 (totalBytesSent + num_bytes_sent)
      let wire := wire ++ data.take sent.toNat
      if num_bytes_sent = -1 then some (.threw wire)
      else sendDataLoop send data fuel (call + 1) totalBytesSent wire
    else some (.returned wire)

/-- The function `sendData` (lines 108-125) run for at most `fuel` iterations of its loop. -/
def sendData (send : Nat → Nat → Int) (data : Str) (fuel : Nat) : Option SendResult :=
  sendDataLoop send data fuel 0 0 []

/-- The bytes the transport has taken once the loop of `sendData` (lines 112-124) has made `fuel`
iterations, or has ended before: the loop of `sendDataLoop`, read off at the bound as well. -/
def sendDataWire (send : Nat → Nat → Int) (data : Str) : Nat → Nat → Int → Str → Str
  | 0, _, _, wire => wire
  | fuel + 1, call, totalBytesSent, wire =>
    if totalBytesSent ≠ wrapInt32 data.length then
      let sent := send call data.length
      let num_bytes_sent := wrapInt32 sent
      let totalBytesSent := wrapInt32 (totalBytesSent + num_bytes_sent)
      let wire := wire ++ data.take sent.toNat
      if num_bytes_sent = -1 then wire
      else sendDataWire send data fuel (call + 1) totalBytesSent wire
    else wire

/-! ## Effects of the request handler -/

/-- A call made by a worker: `sendData(socket, data, data.size())` or `close(socket)`. What a call
of `sendData` puts on the connection, and whether it returns, depends on the transport: see
`sendData` and `Run.perform`. -/
inductive Event where
  | sendData (socket : Int) (data : Str)
  | close (socket : Int)
  deriving DecidableEq, Repr

/-- How a piece of code ends: it returns, it leaves by an exception that nothing catches, it
never finishes, or the process is killed by a signal. -/
inductive Outcome where
  | returned
  | threw
  | hangs
  | killed
  deriving DecidableEq, Repr

/-- The calls a piece of code makes, in order, and the way it ends, when every call of `sendData`
it makes returns. The code of the server never looks at what `sendData` did (it returns `void`),
so the calls that follow a call of `sendData` do not depend on the transport; they are made
exactly when the call returns. -/
structure Run where
  events : List Event
  outcome : Outcome
  deriving DecidableEq, Repr

/-- Sequential composition: the second part runs only when the first one returns. -/
def Run.andThen (r k : Run) : Run :=
  match r.outcome with
  | .returned => ⟨r.events ++ k.events, k.outcome⟩
  | _ => r

/-- The statement `sendData(src, data, data.size())`: the call is recorded, and the code after it
runs when the call returns. Whether it returns, and with which bytes on the connection, is
decided by `Run.perform`. -/
def Run.send (src : Int) (data : Str) : Run := ⟨[.sendData src data], .returned⟩

/-- Everything handed to `sendData`, concatenated in call order. -/
def Run.sentBytes (r : Run) : Str :=
  (r.events.map (fun e => match e with
    | .sendData _ data => data
    | .close _ => [])).flatten

/-- A transport for one iteration of a worker: `transport k j n` is the value returned by the
`j`-th call of `send` that the `k`-th call of `sendData` makes, when `n` bytes are offered. -/
abbrev Transport := Nat → Nat → Nat → Int

/-- What has happened on the connection of a worker: the bytes the transport has taken, in order,
the calls of `close` made, and the way the code ended. -/
structure Served where
  wire : Str
  closes : List Int
  outcome : Outcome
  deriving DecidableEq, Repr

/-- Runs the calls of a list on a transport, from the `k`-th call of `sendData` on. Each call of
`sendData` is run by the function `sendData`, for at most `fuel` iterations of its loop: when it
returns, its bytes are added to the wire and the next call is made; when it throws, its bytes are
added and no further call is made; when it is still running at the bound, the bytes taken in
these `fuel` iterations are added and no further call is made. `outcome` is the way the code ends
after its last call. -/
def Run.performFrom (transport : Transport) (fuel : Nat) (outcome : Outcome) :
    List Event → Nat → Served → Served
  | [], _, s => { s with outcome := outcome }
  | .sendData _ data :: rest, k, s =>
    match sendData (transport k) data fuel with
    | none =>
      { s with wire := s.wire ++ sendDataWire (transport k) data fuel 0 0 [], outcome := .hangs }
    | some (.threw wire) => { s with wire := s.wire ++ wire, outcome := .threw }
    | some (.returned wire) =>
      Run.performFrom transport fuel outcome rest (k + 1) { s with wire := s.wire ++ wire }
  | .close socket :: rest, k, s =>
    Run.performFrom transport fuel outcome rest k { s with closes := s.closes ++ [socket] }

/-- A piece of code run on a transport: the bytes on the connection, the calls of `close` made and
the way it ends. -/
def Run.perform (transport : Transport) (fuel : Nat) (r : Run) : Served :=
  Run.performFrom transport fuel r.outcome r.events 0 ⟨[], [], .returned⟩

/-! ## File system -/

/-- What a path names: a regular file with its bytes, or a directory with the names of the entries
directly under it, in the order `fs::directory_iterator` yields them. `fault` stands for a path
whose status the operating system refuses to report, for a reason other than the path not
existing: a component longer than the name limit, a directory without search permission, a loop
of symbolic links. -/
inductive Node where
  | file (data : Str)
  | dir (names : List Str)
  | fault
  deriving DecidableEq, Repr

/-- A state of the file system: what each path string resolves to; `none` is a path that does not
exist. -/
abbrev FileSystem := Str → Option Node

/-- The call `fs::exists(path)` of line 397, the overload that throws: `none` stands for the
`filesystem_error` thrown when the status of the path cannot be determined. -/
def fsExists (fs : FileSystem) (path : Str) : Option Bool :=
  match fs path with
  | none => some false
  | some .fault => none
  | some _ => some true

/-- The call `fs::file_size(path)`; `none` stands for the `filesystem_error` thrown when the path
does not name a regular file. -/
def file_size (fs : FileSystem) (path : Str) : Option Nat :=
  match fs path with
  | some (.file data) => some data.length
  | _ => none

/-- The path of a directory entry, `dir / name`: a separator is inserted unless `dir` is empty or
already ends with one. -/
def entryPath (dir name : Str) : Str :=
  if dir = [] ∨ dir.getLast? = some '/' then dir ++ name else dir ++ '/' :: name

/-! ## Response generation (`torero-serve.cpp`) -/

/-- The function `sendBadReq` (lines 152-157). -/
def sendBadReq (src : Int) : Run :=
  let buffer := "".toList
  let buffer := buffer ++ "HTTP/1.0 400 BAD REQUEST\r\n\r\n".toList
  Run.send src buffer

/-- The HTML body built by `pageNotFound` (lines 170-183). -/
def notFoundBody : Str :=
  "<!DOCTYPE HTML PUBLIC -//IETF//DTD HTML 2.0//EN>\n".toList ++
  "<html>\n".toList ++
  "<header>\n".toList ++
  "<title>Page Not Found</title>\n".toList ++
  "</header>\n".toList ++
  "<body>\n".toList ++
  "<h1>\n".toList ++
  "HTTP ERROR 404\n".toList ++
  "</h1>\n".toList ++
  "<p>\n".toList ++
  "Page not Found\n".toList ++
  "</p>\n".toList ++
  "</body>\n".toList ++
  "</html>\n".toList

/-- The function `pageNotFound` (lines 164-192). -/
def pageNotFound (src : Int) : Run :=
  let buffer := notFoundBody
  let headerBuffer := "HTTP/1.0 404 PAGE NOT FOUND\r\n".toList
  let headerBuffer := headerBuffer ++
    ("Content-length: ".toList ++ to_string buffer.length ++ "\r\n".toList)
  let headerBuffer := headerBuffer ++ "Content-Type: text/html\r\n\r\n".toList
  (Run.send src headerBuffer).andThen (Run.send src buffer)

/-- The reading loop of `fileToBuffer` (lines 208-212). `unread` is the part of the file not yet
read and `file_data` the array being filled. A call `file.read(file_data, buffer_size)` stores the
bytes it gets at the start of the array and sets the end-of-file flag exactly when it gets fewer
than `buffer_size` bytes. `none`: the loop is still running when the bound is reached. -/
def readLoop (buffer_size : Nat) : Nat → Str → Str → Option Str
  | 0, _, _ => none
  | fuel + 1, unread, file_data =>
    let got := unread.take buffer_size
    let file_data := got ++ file_data.drop got.length
    if got.length = buffer_size then readLoop buffer_size fuel (unread.drop buffer_size) file_data
    else some file_data

/-- The function `fileToBuffer` (lines 200-215). The size of the array is the file size converted
to `unsigned int`. The array `file_data` of line 205 lives on the stack of the worker thread:
`stack` is the number of bytes such an array may hold there, and a larger array makes the first
access below it fault, which kills the process. The loop runs at most once per byte of the file
plus once more when `buffer_size` is positive, so the bound given to `readLoop` is reached only by
a loop that never ends (which is the case when `buffer_size` is zero). -/
def fileToBuffer (stack : Nat) (fs : FileSystem) (src : Int) (filename : Str) : Run :=
  match fs filename with
  | some (.file data) =>
    let buffer_size := data.length % 4294967296
    if stack < buffer_size then ⟨[], .killed⟩
    else
      match readLoop buffer_size (data.length + 2) data (List.replicate buffer_size '\x00') with
      | some file_data => Run.send src file_data
      | none => ⟨[], .hangs⟩
  | _ => ⟨[], .threw⟩

/-- The function `generateHTMLDir` (lines 291-300). -/
def generateHTMLDir (files : List Str) : Str :=
  let text := "<html>\n<body>\n<ul>\n".toList
  let text := files.foldl
    (fun text it =>
      text ++ ("\t<li><a href=\"".toList ++ it ++ "/\">".toList ++ it ++ "</a></li>\n".toList))
    text
  text ++ "</ul>\n</body>\n</html>".toList

/-- The array `binaryExtensions` (line 70). -/
def binaryExtensions : List Str := ["png".toList, "jpg".toList, "gif".toList]

/-- The function `isImage` (lines 338-341). -/
def isImage (extension : Str) : Bool := binaryExtensions.contains extension

/-- The string `contentType` chosen at lines 263-274. -/
def contentType (fileExtension : Str) : Str :=
  if isImage fileExtension then
    "Content-Type: image/".toList ++ fileExtension ++ "\r\n\r\n".toList
  else if fileExtension = "pdf".toList then
    "Content-Type: application/".toList ++ fileExtension ++ "\r\n\r\n".toList
  else
    "Content-Type: text/".toList ++ fileExtension ++ " charset=iso-8859-1\r\n\r\n".toList

/-- What the loop over the directory entries (lines 232-250) leaves behind: either the complete
run of the `index.html` case (which ends the loop with `flag` false) or of an exception, or the
list `fileList` with `flag` still true. -/
inductive Scan where
  | done (r : Run)
  | listing (fileList : List Str)
  deriving DecidableEq, Repr

/-- The loop of lines 232-250 over the entry names still to visit. `buffer` is the status line
built so far and `fileList` the vector filled by the entries already visited. -/
def scanDirectory (stack : Nat) (fs : FileSystem) (src : Int) (filePath buffer : Str) :
    List Str → List Str → Scan
  | [], fileList => .listing fileList
  | name :: rest, fileList =>
    let path := entryPath filePath name
    let fileList := fileList ++ [path]
    if name = "index.html".toList then
      let filePath := filePath ++ "/index.html".toList
      match file_size fs filePath with
      | none => .done ⟨[], .threw⟩
      | some size =>
        let file_size := wrapInt32 size
        let lengthLine := "Content-length: ".toList ++ to_string file_size ++ "\r\n".toList
        let buffer := buffer ++ lengthLine
        let buffer := buffer ++ "Content-Type: text/html charset=iso-8859-1\r\n\r\n".toList
        .done ((Run.send src buffer).andThen (fileToBuffer stack fs src filePath))
    else if path.length < 3 then .done ⟨[], .threw⟩
    else scanDirectory stack fs src filePath buffer rest (fileList.dropLast ++ [path.drop 3])

/-- The directory branch of `readAndSendFileData` (lines 228-260). `fs::directory_iterator` throws
when the path does not name a directory; `substr(3)` throws on a string shorter than three. -/
def serveDirectory (stack : Nat) (fs : FileSystem) (src : Int) (filePath buffer : Str) : Run :=
  match fs filePath with
  | some (.dir names) =>
    match scanDirectory stack fs src filePath buffer names [] with
    | .done r => r
    | .listing fileList =>
      let file_size := wrapInt32 (generateHTMLDir fileList).length
      let lengthLine := "Content-length: ".toList ++ to_string file_size ++ "\r\n".toList
      let buffer := buffer ++ lengthLine
      let buffer := buffer ++ "Content-Type: text/html charset=iso-8859-1\r\n\r\n".toList
      let buffer := buffer ++ generateHTMLDir fileList
      Run.send src buffer
  | _ => ⟨[], .threw⟩

/-- The file branch of `readAndSendFileData` (lines 262-282). -/
def serveFile (stack : Nat) (fs : FileSystem) (src : Int) (filePath fileExtension buffer : Str) :
    Run :=
  let contentType := contentType fileExtension
  match file_size fs filePath with
  | none => ⟨[], .threw⟩
  | some size =>
    let file_size := wrapInt32 size
    let lengthLine := "Content-length: ".toList ++ to_string file_size ++ "\r\n".toList
    let buffer := buffer ++ lengthLine
    let buffer := buffer ++ contentType
    (Run.send src buffer).andThen (fileToBuffer stack fs src filePath)

/-- The function `readAndSendFileData` (lines 217-283). -/
def readAndSendFileData (stack : Nat) (fs : FileSystem) (src : Int) (filePath : Str) : Run :=
  let fileExtension := getFileExtension filePath
  let buffer := "".toList
  let buffer := buffer ++ "HTTP/1.0 200 OK\r\n".toList
  if fileExtension = "".toList then serveDirectory stack fs src filePath buffer
  else serveFile stack fs src filePath fileExtension buffer

/-- One iteration of the loop of `handleClient` (lines 383-405) for the connection `client_sock`
taken from the buffer. `received` is what `receiveData` produces: the bytes of a single `recv`,
or `none` when it throws. The test of line 397 leaves by the exception of `fs::exists` when that
call throws. -/
def handleClient (stack : Nat) (fs : FileSystem) (dir : Str) (client_sock : Int)
    (received : Option Str) : Run :=
  match received with
  | none => ⟨[], .threw⟩
  | some request_string =>
    let filePath := dir ++ getFileRequest request_string
    let response :=
      if !regexFormatCorrect request_string then sendBadReq client_sock
      else
        match fsExists fs filePath with
        | none => ⟨[], .threw⟩
        | some false => pageNotFound client_sock
        | some true => readAndSendFileData stack fs client_sock filePath
    response.andThen ⟨[.close client_sock], .returned⟩

/-! ## `BoundedBuffer` -/

/-- Modelled from the spec: the class declaration is in `BoundedBuffer.hpp`, which is not among
the sources. The fields are the two that the member functions of `BoundedBuffer.cpp` read and
write, the capacity fixed at construction and the queue of connection handles; the mutex and the
condition variable only serialise the critical sections, which are taken as atomic steps. -/
structure BoundedBuffer where
  capacity : Nat
  buffer : List Int
  deriving DecidableEq, Repr

namespace BoundedBuffer

/-- The constructor (lines 19-24): `max_size` is stored in the `unsigned int capacity` and the
queue starts empty. -/
def init (max_size : Int) : BoundedBuffer :=
  { capacity := (max_size % 4294967296).toNat, buffer := [] }

/-- The critical section of `getItem` (lines 29-40) as one atomic step. `none`: the wait predicate
`buffer.size() == 0` holds, so the caller stays blocked. Otherwise the front item is returned and
popped. -/
def getItem (b : BoundedBuffer) : Option (Int × BoundedBuffer) :=
  if b.buffer.length = 0 then none
  else some (b.buffer.headD 0, { b with buffer := b.buffer.tail })

/-- The critical section of `putItem` (lines 47-56) as one atomic step. `none`: the wait predicate
`buffer.size() == capacity` holds, so the caller stays blocked. Otherwise the item is pushed at the
back. -/
def putItem (b : BoundedBuffer) (new_item : Int) : Option BoundedBuffer :=
  if b.buffer.length = b.capacity then none
  else some { b with buffer := b.buffer ++ [new_item] }

/-- A completed operation on the buffer. -/
inductive Op where
  | put (new_item : Int)
  | get
  deriving DecidableEq, Repr

/-- Runs the operations one after the other, in the order in which they hold the mutex, and
collects the values returned by `getItem`. `none`: some operation of the list cannot complete at
its place in the order. -/
def run : BoundedBuffer → List Op → Option (BoundedBuffer × List Int)
  | b, [] => some (b, [])
  | b, .put x :: ops =>
    match b.putItem x with
    | none => none
    | some b1 => run b1 ops
  | b, .get :: ops =>
    match b.getItem with
    | none => none
    | some (item, b1) =>
      match run b1 ops with
      | none => none
      | some (b2, items) => some (b2, item :: items)

/-- The values passed to `putItem`, in order. -/
def puts : List Op → List Int
  | [] => []
  | .put x :: ops => x :: puts ops
  | .get :: ops => puts ops

/-- The states reachable from the buffer built by `BoundedBuffer(max_size)` through completed
`putItem` and `getItem` steps. -/
inductive Reachable (max_size : Int) : BoundedBuffer → Prop where
  | init : Reachable max_size (init max_size)
  | put {b b1 : BoundedBuffer} (x : Int) :
      Reachable max_size b → b.putItem x = some b1 → Reachable max_size b1
  | get {b b1 : BoundedBuffer} (item : Int) :
      Reachable max_size b → b.getItem = some (item, b1) → Reachable max_size b1

end BoundedBuffer

/-! ## Vocabulary of the specification -/

/-- The bytes of a request before its first line feed. -/
def firstLine (request : Str) : Str := request.takeWhile (fun c => c != '\n')

/-- A character allowed in a segment of the target: a letter, a digit, underscore, hyphen or
dot. -/
def targetChar (c : Char) : Prop :=
  c.isAlpha = true ∨ c.isDigit = true ∨ c = '_' ∨ c = '-' ∨ c = '.'

/-- A segment of the target: a slash followed by allowed characters. -/
def Segment (s : Str) : Prop := ∃ body : Str, s = '/' :: body ∧ ∀ c ∈ body, targetChar c

/-- The request-line grammar, with the trailer left open: `GET`, one or more spaces, the target
(zero or more segments), zero or more spaces, `HTTP/`, a digit, a dot, a digit, and a trailer. -/
def ParsedLine (Trailer : Str → Prop) (line target : Str) : Prop :=
  ∃ (sp1 : Str) (segs : List Str) (sp2 : Str) (d1 d2 : Char) (tr : Str),
    line = "GET".toList ++ sp1 ++ target ++ sp2 ++ "HTTP/".toList ++ [d1] ++ ['.'] ++ [d2] ++ tr ∧
    sp1 ≠ [] ∧ (∀ c ∈ sp1, c = ' ') ∧
    target = segs.flatten ∧ (∀ s ∈ segs, Segment s) ∧
    (∀ c ∈ sp2, c = ' ') ∧
    d1.isDigit = true ∧ d2.isDigit = true ∧ Trailer tr

/-- The trailer as the specification words it: an optional trailing CR/LF. -/
def OptionalCRLF (tr : Str) : Prop :=
  tr = [] ∨ tr = ['\r'] ∨ tr = ['\n'] ∨ tr = ['\r', '\n']

/-- A trailer made of carriage returns only, any number of them. -/
def CarriageReturns (tr : Str) : Prop := ∀ c ∈ tr, c = '\r'

/-- The content-type rule table of the specification, as a header line without its line end:
rule 1 for `png`, `jpg` and `gif`, then rule 2 for `pdf`, then rule 3 for everything else. -/
def specContentTypeLine (extension : Str) : Str :=
  if extension = "png".toList ∨ extension = "jpg".toList ∨ extension = "gif".toList then
    "Content-Type: image/".toList ++ extension
  else if extension = "pdf".toList then "Content-Type: application/pdf".toList
  else "Content-Type: text/".toList ++ extension ++ "; charset=iso-8859-1".toList

/-- An HTML anchor with the given `href` value and text. -/
def anchor (href text : Str) : Str :=
  "<a href=\"".toList ++ href ++ "\">".toList ++ text ++ "</a>".toList

/-- One line of the generated listing: a list item holding an anchor. -/
def listItem (a : Str) : Str := "\t<li>".toList ++ a ++ "</li>\n".toList

/-! ## Example states -/

/-- A document root `WWW` holding a regular file without extension, a directory whose name has a
dot, a text file, an image and a PDF document. -/
def exampleFS : FileSystem := fun path =>
  if path = "WWW".toList then
    some (.dir ["README".toList, "v1.2".toList, "notes.xyz".toList, "logo.png".toList,
      "doc.pdf".toList])
  else if path = "WWW/README".toList then some (.file "hello".toList)
  else if path = "WWW/v1.2".toList then some (.dir [])
  else if path = "WWW/notes.xyz".toList then some (.file "hello".toList)
  else if path = "WWW/logo.png".toList then some (.file "PNG".toList)
  else if path = "WWW/doc.pdf".toList then some (.file "%PDF-1".toList)
  else none

/-- A file system in which every path names a one-byte regular file. -/
def everywhereFS : FileSystem := fun _ => some (.file "x".toList)

/-- A transport that takes at most two bytes per call of `send`, and never fails. -/
def twoByteTransport : Nat → Nat → Int := fun _ n => ((min 2 n : Nat) : Int)

/-! ## The wait loops of `BoundedBuffer` -/

namespace BoundedBuffer

/-- The body of `putItem` (lines 48-55) as its caller runs it. The list holds the states of the
buffer that the caller finds each time it holds the mutex and tests the loop condition: at entry,
and then after every return from `cv.wait`, whatever caused the wake-up. While the test
`buffer.size() == capacity` is true the caller waits again; at the first state where it is false
the item is pushed. `none`: the caller is still waiting after the last state of the list. -/
def putItemWait (new_item : Int) : List BoundedBuffer → Option BoundedBuffer
  | [] => none
  | b :: wakeups =>
    if b.buffer.length = b.capacity then putItemWait new_item wakeups
    else some { b with buffer := b.buffer ++ [new_item] }

/-- The body of `getItem` (lines 30-39) as its caller runs it, over the states found at entry and
after every wake-up. While the test `buffer.size() == 0` is true the caller waits again; at the
first state where it is false the front item is taken. -/
def getItemWait : List BoundedBuffer → Option (Int × BoundedBuffer)
  | [] => none
  | b :: wakeups =>
    if b.buffer.length = 0 then getItemWait wakeups
    else some (b.buffer.headD 0, { b with buffer := b.buffer.tail })

end BoundedBuffer

/-- The last component of a path: what follows its last slash. -/
def fileName (path : Str) : Str := (path.reverse.takeWhile (fun c => c != '/')).reverse

/-- The extension of a file name in the words of the specification: the characters after the last
dot of the last path component, and nothing when that component has no dot. -/
def specExtension (path : Str) : Str :=
  let name := fileName path
  if '.' ∈ name then (name.reverse.takeWhile (fun c => c != '.')).reverse else []

/-- A document root `WWW` with a directory `site` that holds an `index.html` between two other
entries, a directory `sub` without one, an archive with two dots in its name, an empty file, and
a directory `v1.2` that holds an `index.html`. -/
def siteFS : FileSystem := fun path =>
  if path = "WWW".toList then
    some (.dir ["site".toList, "sub".toList, "archive.tar.gz".toList, "empty.txt".toList,
      "v1.2".toList])
  else if path = "WWW/site".toList then
    some (.dir ["a.txt".toList, "index.html".toList, "z.txt".toList])
  else if path = "WWW/site/a.txt".toList then some (.file "a".toList)
  else if path = "WWW/site/index.html".toList then some (.file "<h1>hi</h1>".toList)
  else if path = "WWW/site/z.txt".toList then some (.file "z".toList)
  else if path = "WWW/sub".toList then some (.dir ["b.txt".toList])
  else if path = "WWW/sub/b.txt".toList then some (.file "b".toList)
  else if path = "WWW/archive.tar.gz".toList then some (.file "gzip".toList)
  else if path = "WWW/empty.txt".toList then some (.file [])
  else if path = "WWW/v1.2".toList then some (.dir ["index.html".toList])
  else if path = "WWW/v1.2/index.html".toList then some (.file "<p>v</p>".toList)
  else none

/-- A document root `public`, whose name has six characters, holding one file. -/
def publicFS : FileSystem := fun path =>
  if path = "public".toList then some (.dir ["a.txt".toList])
  else if path = "public/a.txt".toList then some (.file "a".toList)
  else none

/-- A file system in which no path exists. -/
def emptyFS : FileSystem := fun _ => none

/-- A run that only calls `sendData` on the connection `src`, and that has called it at least
once if it returns. -/
def Run.IsResponse (src : Int) (r : Run) : Prop :=
  (∀ e ∈ r.events, ∃ data, e = Event.sendData src data) ∧
    (r.outcome = .returned → r.events ≠ [])

/-- The room taken in the examples for the array of `fileToBuffer`: the stack of a thread on
Linux when nothing else is asked for, 8 MiB, less the array `received_data` of 2048 bytes that
`handleClient` keeps there. The frames of the calls take some more, so a thread really has less
than this. -/
def defaultStack : Nat := 8388608 - 2048

/-- A transport whose `send` takes every buffer whole. -/
def wholeTransport : Transport := fun _ _ n => (n : Int)

/-- A transport whose `send` takes at most two bytes per call, in every call of `sendData`. -/
def slowTransport : Transport := fun _ => twoByteTransport

/-- A document root `WWW` holding an image whose name has two dots, and a document root `./WWW`
holding an image. -/
def photoFS : FileSystem := fun path =>
  if path = "WWW/my.photo.png".toList then some (.file "PNG".toList)
  else if path = "./WWW/logo.png".toList then some (.file "PNG".toList)
  else none

/-- A file system without files, in which a path whose last component is longer than 255
characters cannot be looked up: the operating system answers that the name is too long. -/
def longNameFS : FileSystem := fun path =>
  if 255 < (fileName path).length then some .fault else none

namespace Regex

theorem nil_mem_mul_iff (l m : Language Char) : [] ∈ l * m ↔ [] ∈ l ∧ [] ∈ m := by
  rw [Language.mem_mul]
  constructor
  · rintro ⟨a, ha, b, hb, hab⟩
    obtain ⟨rfl, rfl⟩ := List.append_eq_nil.mp hab
    exact ⟨ha, hb⟩
  · rintro ⟨ha, hb⟩
    exact ⟨[], ha, [], hb, rfl⟩

theorem nullable_iff (r : Regex) : r.nullable = true ↔ [] ∈ r.lang := by
  induction r with
  | none => simp [nullable, lang, Language.not_mem_zero]
  | eps => simp [nullable, lang, Language.mem_one]
  | chr c =>
    simp only [nullable, lang]
    constructor
    · intro h; cases h
    · intro h; cases h
  | cls items =>
    simp only [nullable, lang]
    constructor
    · intro h; cases h
    · rintro ⟨c, hc, _⟩; cases hc
  | seq r s ihr ihs =>
    simp only [nullable, lang, Bool.and_eq_true, nil_mem_mul_iff, ihr, ihs]
  | alt r s ihr ihs =>
    simp only [nullable, lang, Bool.or_eq_true, Language.mem_add, ihr, ihs]
  | star r _ =>
    simp only [nullable, lang, true_iff]
    exact Language.nil_mem_kstar _

theorem cons_mem_mul_iff (l m : Language Char) (a : Char) (x : Str) :
    a :: x ∈ l * m ↔
      (∃ y z, x = y ++ z ∧ a :: y ∈ l ∧ z ∈ m) ∨ ([] ∈ l ∧ a :: x ∈ m) := by
  rw [Language.mem_mul]
  constructor
  · rintro ⟨u, hu, v, hv, huv⟩
    cases u with
    | nil => right; simp only [List.nil_append] at huv; subst huv; exact ⟨hu, hv⟩
    | cons b y =>
      left
      simp only [List.cons_append, List.cons.injEq] at huv
      obtain ⟨rfl, rfl⟩ := huv
      exact ⟨y, v, rfl, hu, hv⟩
  · rintro (⟨y, z, rfl, hy, hz⟩ | ⟨hl, hm⟩)
    · exact ⟨a :: y, hy, z, hz, rfl⟩
    · exact ⟨[], hl, a :: x, hm, rfl⟩

theorem cons_mem_kstar_iff (l : Language Char) (a : Char) (x : Str) :
    a :: x ∈ KStar.kstar l ↔ ∃ y z, x = y ++ z ∧ a :: y ∈ l ∧ z ∈ KStar.kstar l := by
  constructor
  · intro h
    obtain ⟨S, hS, hmem⟩ := Language.mem_kstar_iff_exists_nonempty.mp h
    cases S with
    | nil => simp at hS
    | cons w S =>
      obtain ⟨hw, hne⟩ := hmem w (List.mem_cons_self _ _)
      cases w with
      | nil => exact absurd rfl hne
      | cons b y =>
        simp only [List.flatten_cons, List.cons_append, List.cons.injEq] at hS
        obtain ⟨rfl, rfl⟩ := hS
        refine ⟨y, S.flatten, rfl, hw, ?_⟩
        exact Language.join_mem_kstar (fun t ht => (hmem t (List.mem_cons_of_mem _ ht)).1)
  · rintro ⟨y, z, rfl, hy, hz⟩
    have h : (a :: y) ++ z ∈ l * KStar.kstar l := Language.append_mem_mul hy hz
    rw [← Language.one_add_self_mul_kstar_eq_kstar]
    exact (Language.mem_add _ _ _).mpr (Or.inr h)

theorem deriv_lang (r : Regex) (a : Char) (x : Str) :
    x ∈ (r.deriv a).lang ↔ a :: x ∈ r.lang := by
  induction r generalizing x with
  | none => simp [deriv, lang, Language.not_mem_zero]
  | eps => simp [deriv, lang, Language.not_mem_zero, Language.mem_one]
  | chr c =>
    simp only [deriv, lang]
    split
    · next h =>
      subst h
      simp only [lang, Language.mem_one]
      constructor
      · rintro rfl; rfl
      · intro hx
        have hx2 : a :: x = [a] := hx
        simp only [List.cons.injEq, true_and] at hx2
        exact hx2
    · next h =>
      simp only [lang, Language.not_mem_zero, false_iff]
      intro hx
      have hx2 : a :: x = [c] := hx
      simp only [List.cons.injEq] at hx2
      exact h hx2.1
  | cls items =>
    simp only [deriv, lang]
    split
    · next h =>
      simp only [lang, Language.mem_one]
      constructor
      · rintro rfl; exact ⟨a, rfl, h⟩
      · rintro ⟨c, hc, _⟩
        simp only [List.cons.injEq] at hc
        exact hc.2
    · next h =>
      simp only [lang, Language.not_mem_zero, false_iff]
      rintro ⟨c, hc, hcls⟩
      simp only [List.cons.injEq] at hc
      obtain ⟨rfl, -⟩ := hc
      exact h hcls
  | seq r s ihr ihs =>
    simp only [deriv]
    rw [show (r.seq s).lang = r.lang * s.lang from rfl, cons_mem_mul_iff]
    split
    · next h =>
      rw [show ((r.deriv a).seq s |>.alt (s.deriv a)).lang
            = (r.deriv a).lang * s.lang + (s.deriv a).lang from rfl, Language.mem_add,
        Language.mem_mul, ihs]
      have hn := (nullable_iff r).mp h
      constructor
      · rintro (⟨y, hy, z, hz, rfl⟩ | hs)
        · exact Or.inl ⟨y, z, rfl, (ihr y).mp hy, hz⟩
        · exact Or.inr ⟨hn, hs⟩
      · rintro (⟨y, z, rfl, hy, hz⟩ | ⟨-, hs⟩)
        · exact Or.inl ⟨y, (ihr y).mpr hy, z, hz, rfl⟩
        · exact Or.inr hs
    · next h =>
      rw [show ((r.deriv a).seq s).lang = (r.deriv a).lang * s.lang from rfl, Language.mem_mul]
      have hn : ¬ [] ∈ r.lang := fun hmem => h ((nullable_iff r).mpr hmem)
      constructor
      · rintro ⟨y, hy, z, hz, rfl⟩
        exact Or.inl ⟨y, z, rfl, (ihr y).mp hy, hz⟩
      · rintro (⟨y, z, rfl, hy, hz⟩ | ⟨hnil, -⟩)
        · exact ⟨y, (ihr y).mpr hy, z, hz, rfl⟩
        · exact absurd hnil hn
  | alt r s ihr ihs =>
    simp only [deriv, lang, Language.mem_add, ihr, ihs]
  | star r ih =>
    rw [show (r.star.deriv a).lang = (r.deriv a).lang * KStar.kstar r.lang from rfl,
      show r.star.lang = KStar.kstar r.lang from rfl, cons_mem_kstar_iff, Language.mem_mul]
    constructor
    · rintro ⟨y, hy, z, hz, rfl⟩
      exact ⟨y, z, rfl, (ih y).mp hy, hz⟩
    · rintro ⟨y, z, rfl, hy, hz⟩
      exact ⟨y, (ih y).mpr hy, z, hz, rfl⟩

end Regex

/-- The matcher decides membership in the language of the pattern. -/
theorem regex_match_iff (s : Str) (re : Regex) : regex_match s re = true ↔ s ∈ re.lang := by
  induction s generalizing re with
  | nil => exact Regex.nullable_iff re
  | cons a x ih =>
    rw [← Regex.deriv_lang, ← ih]
    rfl

/-! ## The request-line pattern -/

theorem classTest_digit (c : Char) : Regex.classTest digitClass c = true ↔ c.isDigit = true := by
  simp [Regex.classTest, digitClass, ClassItem.test, Char.isDigit, Char.le_def, UInt32.le_def]

theorem classTest_target (c : Char) : Regex.classTest targetClass c = true ↔ targetChar c := by
  simp [Regex.classTest, targetClass, ClassItem.test, targetChar, Char.isDigit, Char.isAlpha,
    Char.isUpper, Char.isLower, Char.le_def, UInt32.le_def]
  tauto

theorem classTest_space (c : Char) : Regex.classTest [.single ' '] c = true ↔ c = ' ' := by
  simp [Regex.classTest, ClassItem.test]

theorem classTest_crlf (c : Char) :
    Regex.classTest [.single '\r', .single '\n'] c = true ↔ c = '\r' ∨ c = '\n' := by
  simp [Regex.classTest, ClassItem.test]

namespace Regex

theorem mem_lang_lit (s w : Str) : w ∈ (lit s).lang ↔ w = s := by
  induction s generalizing w with
  | nil => simp [lit, lang, Language.mem_one]
  | cons c cs ih =>
    rw [show (lit (c :: cs)).lang = {[c]} * (lit cs).lang from rfl, Language.mem_mul]
    constructor
    · rintro ⟨a, ha, b, hb, rfl⟩
      have ha2 : a = [c] := ha
      rw [ha2, (ih b).mp hb]; rfl
    · rintro rfl
      exact ⟨[c], rfl, cs, (ih cs).mpr rfl, rfl⟩

theorem mem_star_cls (items : List ClassItem) (w : Str) :
    w ∈ KStar.kstar (cls items).lang ↔ ∀ c ∈ w, classTest items c = true := by
  induction w with
  | nil => simp [Language.nil_mem_kstar]
  | cons a x ih =>
    rw [cons_mem_kstar_iff]
    constructor
    · rintro ⟨y, z, rfl, ⟨c, hc, hcls⟩, hz⟩
      simp only [List.cons.injEq] at hc
      obtain ⟨rfl, rfl⟩ := hc
      simp only [List.nil_append] at ih
      intro d hd
      rcases List.mem_cons.mp hd with rfl | hd
      · exact hcls
      · exact ih.mp hz d hd
    · intro h
      refine ⟨[], x, rfl, ⟨a, rfl, h a (List.mem_cons_self _ _)⟩, ?_⟩
      exact ih.mpr (fun c hc => h c (List.mem_cons_of_mem _ hc))

theorem mem_segments (w : Str) :
    w ∈ (star (seq (chr '/') (star (cls targetClass)))).lang ↔
      ∃ segs : List Str, w = segs.flatten ∧ ∀ s ∈ segs, Segment s := by
  rw [show (star (seq (chr '/') (star (cls targetClass)))).lang
        = KStar.kstar ({['/']} * KStar.kstar (cls targetClass).lang) from rfl, Language.mem_kstar]
  have key : ∀ s : Str, s ∈ ({['/']} * KStar.kstar (cls targetClass).lang : Language Char)
      ↔ Segment s := by
    intro s
    rw [Language.mem_mul]
    constructor
    · rintro ⟨a, ha, b, hb, rfl⟩
      have ha2 : a = ['/'] := ha
      subst ha2
      exact ⟨b, rfl, fun c hc => (classTest_target c).mp ((mem_star_cls _ _).mp hb c hc)⟩
    · rintro ⟨body, rfl, hbody⟩
      exact ⟨['/'], rfl, body,
        (mem_star_cls _ _).mpr (fun c hc => (classTest_target c).mpr (hbody c hc)), rfl⟩
  constructor
  · rintro ⟨L, rfl, hL⟩
    exact ⟨L, rfl, fun s hs => (key s).mp (hL s hs)⟩
  · rintro ⟨L, rfl, hL⟩
    exact ⟨L, rfl, fun s hs => (key s).mpr (hL s hs)⟩

/-- The language of the request pattern, spelled out: the grammar with a trailer of any number
of CR and LF characters. -/
theorem http_request_regex_lang (line : Str) :
    line ∈ http_request_regex.lang ↔
      ∃ target, ParsedLine (fun tr => ∀ c ∈ tr, c = '\r' ∨ c = '\n') line target := by
  have hl : http_request_regex.lang =
      (lit "GET ".toList).lang *
        (((star (cls [.single ' '])).lang *
            (star (seq (chr '/') (star (cls targetClass)))).lang) *
          ((star (cls [.single ' '])).lang *
            ((lit "HTTP/".toList).lang *
              ((cls digitClass).lang *
                ({['.']} *
                  ((cls digitClass).lang *
                    ((star (cls [.single '\r', .single '\n'])).lang * 1))))))) := rfl
  rw [hl]
  simp only [Language.mem_mul, mem_lang_lit, mem_segments, Language.mem_one]
  constructor
  · rintro ⟨g, rfl, _, ⟨_, ⟨s1, hs1, t, ⟨segs, rfl, hsegs⟩, rfl⟩, _, ⟨s2, hs2, _, ⟨h, rfl, _,
      ⟨_, ⟨d1, rfl, hd1⟩, _, ⟨_, hdot, _, ⟨_, ⟨d2, rfl, hd2⟩, _, ⟨tr, htr, e, rfl, rfl⟩, rfl⟩,
        rfl⟩, rfl⟩, rfl⟩, rfl⟩, rfl⟩, rfl⟩
    have hdot2 : _ = ['.'] := hdot
    subst hdot2
    refine ⟨segs.flatten, ' ' :: s1, segs, s2, d1, d2, tr, ?_, by simp, ?_, rfl, hsegs, ?_,
      (classTest_digit d1).mp hd1, (classTest_digit d2).mp hd2, ?_⟩
    · simp
    · intro c hc
      rcases List.mem_cons.mp hc with rfl | hc
      · rfl
      · exact (classTest_space c).mp ((mem_star_cls _ _).mp hs1 c hc)
    · exact fun c hc => (classTest_space c).mp ((mem_star_cls _ _).mp hs2 c hc)
    · exact fun c hc => (classTest_crlf c).mp ((mem_star_cls _ _).mp htr c hc)
  · rintro ⟨target, sp1, segs, sp2, d1, d2, tr, rfl, hne, hsp1, rfl, hsegs, hsp2, hd1, hd2, htr⟩
    cases sp1 with
    | nil => exact absurd rfl hne
    | cons a s1 =>
      have ha : a = ' ' := hsp1 a (List.mem_cons_self _ _)
      subst ha
      refine ⟨_, rfl, _, ⟨_, ⟨s1, ?_, _, ⟨segs, rfl, hsegs⟩, rfl⟩, _, ⟨sp2, ?_, _, ⟨_, rfl, _,
        ⟨_, ⟨d1, rfl, (classTest_digit d1).mpr hd1⟩, _, ⟨['.'], rfl, _,
          ⟨_, ⟨d2, rfl, (classTest_digit d2).mpr hd2⟩, _, ⟨tr, ?_, [], rfl, rfl⟩, rfl⟩,
        rfl⟩, rfl⟩, rfl⟩, rfl⟩, rfl⟩, ?_⟩
      · exact (mem_star_cls _ _).mpr
          (fun c hc => (classTest_space c).mpr (hsp1 c (List.mem_cons_of_mem _ hc)))
      · exact (mem_star_cls _ _).mpr (fun c hc => (classTest_space c).mpr (hsp2 c hc))
      · exact (mem_star_cls _ _).mpr (fun c hc => (classTest_crlf c).mpr (htr c hc))
      · simp

end Regex

theorem ParsedLine.imp {T U : Str → Prop} {line target : Str} (h : ParsedLine T line target)
    (hTU : ∀ tr, (∀ c ∈ tr, c ∈ line) → T tr → U tr) : ParsedLine U line target := by
  obtain ⟨sp1, segs, sp2, d1, d2, tr, hline, h1, h2, h3, h4, h5, h6, h7, h8⟩ := h
  refine ⟨sp1, segs, sp2, d1, d2, tr, hline, h1, h2, h3, h4, h5, h6, h7, hTU tr ?_ h8⟩
  intro c hc
  rw [hline]
  exact List.mem_append_right _ hc

theorem ParsedLine.ends {T : Str → Prop} {line target : Str} (h : ParsedLine T line target) :
    ∃ (pre : Str) (d2 : Char) (tr : Str), line = pre ++ d2 :: tr ∧ d2.isDigit = true ∧ T tr := by
  obtain ⟨sp1, segs, sp2, d1, d2, tr, hline, -, -, -, -, -, -, h7, h8⟩ := h
  refine ⟨"GET".toList ++ sp1 ++ target ++ sp2 ++ "HTTP/".toList ++ [d1] ++ ['.'], d2, tr, ?_, h7,
    h8⟩
  rw [hline]
  simp

theorem not_mem_firstLine (request : Str) : '\n' ∉ firstLine request := by
  intro h
  have := List.mem_takeWhile_imp h
  simp at this

theorem firstLine_append (request rest : Str) :
    firstLine (firstLine request ++ '\n' :: rest) = firstLine request := by
  induction request with
  | nil => simp [firstLine]
  | cons a x ih =>
    by_cases h : a = '\n'
    · subst h; simp [firstLine]
    · have hb : (a != '\n') = true := by simpa using h
      simp only [firstLine, List.takeWhile_cons, hb, if_true, List.cons_append] at ih ⊢
      rw [ih]

/-- The first line of a request is accepted exactly when it follows the grammar with a trailer
of carriage returns. -/
theorem regexFormatCorrect_iff (request : Str) :
    regexFormatCorrect request = true ↔
      ∃ target, ParsedLine CarriageReturns (firstLine request) target := by
  have h1 : regexFormatCorrect request = regex_match (firstLine request) http_request_regex := rfl
  rw [h1, regex_match_iff, Regex.http_request_regex_lang]
  constructor
  · rintro ⟨target, h⟩
    refine ⟨target, h.imp ?_⟩
    intro tr hsub htr c hc
    rcases htr c hc with rfl | rfl
    · rfl
    · exact absurd (hsub _ hc) (not_mem_firstLine request)
  · rintro ⟨target, h⟩
    exact ⟨target, h.imp (fun tr _ htr c hc => Or.inl (htr c hc))⟩

/-! ## C1 -/

/-- C1, as stated, fails: a first line that ends in two carriage returns is accepted, although it
is not of the stated form, whose trailer is at most one CR/LF. -/
theorem regexFormatCorrect_accepts_repeated_cr :
    regexFormatCorrect "GET / HTTP/1.0\r\r\n".toList = true ∧
      ¬ ∃ target, ParsedLine OptionalCRLF (firstLine "GET / HTTP/1.0\r\r\n".toList) target := by
  refine ⟨by decide, ?_⟩
  rintro ⟨target, h⟩
  obtain ⟨pre, d2, tr, hline, hd, htr⟩ := h.ends
  have hfl : firstLine "GET / HTTP/1.0\r\r\n".toList = "GET / HTTP/1.0\r\r".toList := by decide
  rw [hfl] at hline
  have hrev := congrArg List.reverse hline
  rcases htr with rfl | rfl | rfl | rfl
  · simp at hrev
    rw [← hrev.1] at hd
    exact absurd hd (by decide)
  · simp at hrev
    rw [← hrev.1] at hd
    exact absurd hd (by decide)
  · simp at hrev
  · simp at hrev

/-- C1 (amended): `regexFormatCorrect` returns true if and only if the whole first line (the bytes
before the first LF) is `GET`, one or more spaces, a target of zero or more `/`-prefixed segments
of letters, digits, underscore, hyphen and dot, zero or more spaces, `HTTP/`, a digit, a dot, a
digit, and then any number of carriage returns; the bytes after the first line never change the
result; and `GET /index.html HTTP/1.1\r\n\r\n` is accepted. -/
theorem regexFormatCorrect_first_line (request : Str) :
    (regexFormatCorrect request = true ↔
        ∃ target, ParsedLine CarriageReturns (firstLine request) target) ∧
      (∀ rest, regexFormatCorrect (firstLine request ++ '\n' :: rest)
        = regexFormatCorrect request) ∧
      regexFormatCorrect "GET /index.html HTTP/1.1\r\n\r\n".toList = true := by
  refine ⟨regexFormatCorrect_iff request, ?_, by decide⟩
  intro rest
  have h1 : ∀ r, regexFormatCorrect r = regex_match (firstLine r) http_request_regex :=
    fun _ => rfl
  rw [h1, h1, firstLine_append]

/-! ## The target of a parsed line is unique -/

theorem split_first {α : Type} (p : α → Bool) :
    ∀ (l1 l2 : List α) (x y : α) (r1 r2 : List α),
      (∀ c ∈ l1, p c = false) → (∀ c ∈ l2, p c = false) → p x = true → p y = true →
      l1 ++ x :: r1 = l2 ++ y :: r2 → l1 = l2 ∧ x = y ∧ r1 = r2 := by
  intro l1
  induction l1 with
  | nil =>
    intro l2 x y r1 r2 _ h2 hx _ h
    cases l2 with
    | nil =>
      simp only [List.nil_append, List.cons.injEq] at h
      exact ⟨rfl, h.1, h.2⟩
    | cons b l2 =>
      simp only [List.nil_append, List.cons_append, List.cons.injEq] at h
      have hb := h2 b (List.mem_cons_self _ _)
      rw [← h.1, hx] at hb
      cases hb
  | cons a l1 ih =>
    intro l2 x y r1 r2 h1 h2 hx hy h
    cases l2 with
    | nil =>
      simp only [List.nil_append, List.cons_append, List.cons.injEq] at h
      have ha := h1 a (List.mem_cons_self _ _)
      rw [h.1, hy] at ha
      cases ha
    | cons b l2 =>
      simp only [List.cons_append, List.cons.injEq] at h
      obtain ⟨hl, hx2, hr⟩ := ih l2 x y r1 r2 (fun c hc => h1 c (List.mem_cons_of_mem _ hc))
        (fun c hc => h2 c (List.mem_cons_of_mem _ hc)) hx hy h.2
      exact ⟨by rw [h.1, hl], hx2, hr⟩

theorem targetChar_ne_space {c : Char} (h : targetChar c) : c ≠ ' ' := by
  rintro rfl
  rcases h with h | h | h | h | h <;> revert h <;> decide

theorem Segment.no_space {s : Str} (h : Segment s) : ∀ c ∈ s, (c != ' ') = true := by
  obtain ⟨body, rfl, hbody⟩ := h
  intro c hc
  rcases List.mem_cons.mp hc with rfl | hc
  · decide
  · simpa using targetChar_ne_space (hbody c hc)

theorem segments_no_space {segs : List Str} (h : ∀ s ∈ segs, Segment s) :
    ∀ c ∈ segs.flatten, (c != ' ') = true := by
  intro c hc
  obtain ⟨s, hs, hcs⟩ := List.mem_flatten.mp hc
  exact (h s hs).no_space c hcs

/-- Spaces around a space-free word determine the word. -/
theorem trim_unique (sp1 t sp2 sp1' t' sp2' : Str)
    (h1 : ∀ c ∈ sp1, c = ' ') (h2 : ∀ c ∈ sp2, c = ' ')
    (h1' : ∀ c ∈ sp1', c = ' ') (h2' : ∀ c ∈ sp2', c = ' ')
    (ht : ∀ c ∈ t, (c != ' ') = true) (ht' : ∀ c ∈ t', (c != ' ') = true)
    (h : sp1 ++ t ++ sp2 = sp1' ++ t' ++ sp2') : t = t' := by
  have sp_false : ∀ sp : Str, (∀ c ∈ sp, c = ' ') → ∀ c ∈ sp, (c != ' ') = false := by
    intro sp hsp c hc
    simp [hsp c hc]
  have all_space : ∀ (sp1 sp2 u : Str) (a : Char) (v w : Str), (∀ c ∈ sp1, c = ' ') →
      (∀ c ∈ sp2, c = ' ') → (a != ' ') = true → sp1 ++ [] ++ sp2 = u ++ (a :: v) ++ w →
      False := by
    intro sp1 sp2 u a v w hs1 hs2 ha he
    have hmem : a ∈ sp1 ++ [] ++ sp2 := by rw [he]; simp
    simp only [List.append_nil, List.mem_append] at hmem
    rcases hmem with hm | hm
    · simp [hs1 a hm] at ha
    · simp [hs2 a hm] at ha
  cases t with
  | nil =>
    cases t' with
    | nil => rfl
    | cons a v =>
      exact (all_space sp1 sp2 sp1' a v sp2' h1 h2 (ht' a (List.mem_cons_self _ _)) h).elim
  | cons a v =>
    cases t' with
    | nil =>
      exact (all_space sp1' sp2' sp1 a v sp2 h1' h2' (ht a (List.mem_cons_self _ _)) h.symm).elim
    | cons a' v' =>
      simp only [List.append_assoc, List.cons_append] at h
      obtain ⟨-, e2, e3⟩ := split_first (fun c => c != ' ') sp1 sp1' a a' _ _
        (sp_false sp1 h1) (sp_false sp1' h1') (ht a (List.mem_cons_self _ _))
        (ht' a' (List.mem_cons_self _ _)) h
      subst e2
      have hrev : sp2.reverse ++ (a :: v).reverse = sp2'.reverse ++ (a :: v').reverse := by
        have := congrArg List.reverse (congrArg (List.cons a) e3)
        simpa using this
      cases hz : (a :: v).reverse with
      | nil => simp at hz
      | cons z rest =>
        cases hz' : (a :: v').reverse with
        | nil => simp at hz'
        | cons z' rest' =>
          rw [hz, hz'] at hrev
          have hzm : z ∈ a :: v := by
            rw [← List.mem_reverse, hz]; exact List.mem_cons_self _ _
          have hzm' : z' ∈ a :: v' := by
            rw [← List.mem_reverse, hz']; exact List.mem_cons_self _ _
          obtain ⟨-, e5, e6⟩ := split_first (fun c => c != ' ') sp2.reverse sp2'.reverse z z' _ _
            (fun c hc => sp_false sp2 h2 c (List.mem_reverse.mp hc))
            (fun c hc => sp_false sp2' h2' c (List.mem_reverse.mp hc)) (ht z hzm) (ht' z' hzm')
            hrev
          have : (a :: v).reverse = (a :: v').reverse := by rw [hz, hz', e5, e6]
          exact List.reverse_injective this

/-- A line has at most one target under the grammar, whenever the trailer holds no digit. -/
theorem ParsedLine.target_unique {T : Str → Prop} (hT : ∀ tr, T tr → ∀ c ∈ tr, c.isDigit = false)
    {line t1 t2 : Str} (p1 : ParsedLine T line t1) (p2 : ParsedLine T line t2) : t1 = t2 := by
  obtain ⟨sp1, segs, sp2, d1, d2, tr, hline, -, hsp1, ht, hsegs, hsp2, -, hd2, htr⟩ := p1
  obtain ⟨sp1', segs', sp2', d1', d2', tr', hline', -, hsp1', ht', hsegs', hsp2', -, hd2', htr'⟩ :=
    p2
  have hrev : tr.reverse ++ d2 ::
        ("GET".toList ++ sp1 ++ t1 ++ sp2 ++ "HTTP/".toList ++ [d1] ++ ['.']).reverse
      = tr'.reverse ++ d2' ::
        ("GET".toList ++ sp1' ++ t2 ++ sp2' ++ "HTTP/".toList ++ [d1'] ++ ['.']).reverse := by
    have := congrArg List.reverse (hline.symm.trans hline')
    simpa using this
  obtain ⟨-, -, e⟩ := split_first Char.isDigit tr.reverse tr'.reverse d2 d2' _ _
    (fun c hc => hT tr htr c (List.mem_reverse.mp hc))
    (fun c hc => hT tr' htr' c (List.mem_reverse.mp hc)) hd2 hd2' hrev
  have e2 := List.reverse_injective e
  have e3 : ("GET".toList ++ (sp1 ++ t1 ++ sp2)) ++ ("HTTP/".toList ++ [d1] ++ ['.'])
      = ("GET".toList ++ (sp1' ++ t2 ++ sp2')) ++ ("HTTP/".toList ++ [d1'] ++ ['.']) := by
    simpa using e2
  have e4 := (List.append_inj' e3 (by simp)).1
  have e5 := List.append_cancel_left e4
  rw [ht, ht']
  rw [ht, ht'] at e5
  exact trim_unique sp1 _ sp2 sp1' _ sp2' hsp1 hsp2 hsp1' hsp2' (segments_no_space hsegs)
    (segments_no_space hsegs') e5

theorem CarriageReturns.no_digit (tr : Str) (h : CarriageReturns tr) :
    ∀ c ∈ tr, c.isDigit = false := by
  intro c hc
  rw [h c hc]
  decide

/-! ## C2 -/

theorem takeWhile_append_stop {α : Type} (p : α → Bool) (l : List α) (x : α) (r : List α)
    (hl : ∀ c ∈ l, p c = true) (hx : p x = false) : (l ++ x :: r).takeWhile p = l := by
  induction l with
  | nil => simp [List.takeWhile_cons, hx]
  | cons a l ih =>
    simp only [List.cons_append, List.takeWhile_cons, hl a (List.mem_cons_self _ _), if_true]
    rw [ih (fun c hc => hl c (List.mem_cons_of_mem _ hc))]

/-- When `GET` is followed by exactly one space and the target by at least one, the second token
of the request is the target. -/
theorem getFileRequest_of_single_spaces (segs : List Str) (rest : Str)
    (hsegs : ∀ s ∈ segs, Segment s) :
    getFileRequest ("GET ".toList ++ segs.flatten ++ ' ' :: rest) = segs.flatten := by
  have h1 : getline ("GET ".toList ++ segs.flatten ++ ' ' :: rest) ' '
      = ("GET".toList, segs.flatten ++ ' ' :: rest) := by
    simp [getline, List.takeWhile_cons, List.dropWhile_cons]
  simp only [getFileRequest, h1, getline]
  exact takeWhile_append_stop _ _ _ _ (segments_no_space hsegs) (by decide)

/-- C2: on the accepted request `GET  /a HTTP/1.0\r\n\r\n` (two spaces after `GET`) the grammar
has the single target `/a`, but `getFileRequest` returns the empty string, so the path that
`handleClient` resolves is the document root itself and not the root followed by `/a`. -/
theorem getFileRequest_misses_target :
    regexFormatCorrect "GET  /a HTTP/1.0\r\n\r\n".toList = true ∧
      ParsedLine CarriageReturns (firstLine "GET  /a HTTP/1.0\r\n\r\n".toList) "/a".toList ∧
      (∀ t, ParsedLine CarriageReturns (firstLine "GET  /a HTTP/1.0\r\n\r\n".toList) t →
        t = "/a".toList) ∧
      getFileRequest "GET  /a HTTP/1.0\r\n\r\n".toList = [] ∧
      ∀ dir : Str, dir ++ getFileRequest "GET  /a HTTP/1.0\r\n\r\n".toList = dir ∧
        dir ++ getFileRequest "GET  /a HTTP/1.0\r\n\r\n".toList ≠ dir ++ "/a".toList := by
  have hp : ParsedLine CarriageReturns (firstLine "GET  /a HTTP/1.0\r\n\r\n".toList)
      "/a".toList := by
    refine ⟨"  ".toList, ["/a".toList], " ".toList, '1', '0', "\r".toList, by decide, by decide,
      by decide, by decide, ?_, by decide, by decide, by decide, ?_⟩
    · intro s hs
      rw [List.mem_singleton.mp hs]
      refine ⟨"a".toList, rfl, ?_⟩
      intro c hc
      rw [List.mem_singleton.mp hc]
      exact Or.inl (by decide)
    · intro c hc
      rw [List.mem_singleton.mp hc]
  have hg : getFileRequest "GET  /a HTTP/1.0\r\n\r\n".toList = [] := by decide
  refine ⟨by decide, hp, fun t ht => ParsedLine.target_unique CarriageReturns.no_digit ht hp, hg,
    ?_⟩
  intro dir
  rw [hg]
  refine ⟨List.append_nil dir, ?_⟩
  intro h
  have := congrArg List.length h
  simp at this

/-! ## C4 -/

/-- C4, as stated, fails. `WWW/README` exists and is a regular file, yet the accepted request for
it takes the directory branch (its computed extension is empty), where iterating the directory
throws before anything is sent. `WWW/v1.2` is a directory, yet the request for it takes the file
branch (its computed extension is `2`), where `file_size` throws. -/
theorem branch_ignores_directory_status :
    (regexFormatCorrect "GET /README HTTP/1.0\r\n\r\n".toList = true ∧
      "WWW".toList ++ getFileRequest "GET /README HTTP/1.0\r\n\r\n".toList = "WWW/README".toList ∧
      exampleFS "WWW/README".toList = some (.file "hello".toList) ∧
      readAndSendFileData defaultStack exampleFS 4 "WWW/README".toList
        = serveDirectory defaultStack exampleFS 4 "WWW/README".toList "HTTP/1.0 200 OK\r\n".toList ∧
      readAndSendFileData defaultStack exampleFS 4 "WWW/README".toList
        ≠ serveFile defaultStack exampleFS 4 "WWW/README".toList (getFileExtension "WWW/README".toList)
            "HTTP/1.0 200 OK\r\n".toList ∧
      handleClient defaultStack exampleFS "WWW".toList 4 (some "GET /README HTTP/1.0\r\n\r\n".toList)
        = ⟨[], .threw⟩) ∧
    (regexFormatCorrect "GET /v1.2 HTTP/1.0\r\n\r\n".toList = true ∧
      "WWW".toList ++ getFileRequest "GET /v1.2 HTTP/1.0\r\n\r\n".toList = "WWW/v1.2".toList ∧
      exampleFS "WWW/v1.2".toList = some (.dir []) ∧
      readAndSendFileData defaultStack exampleFS 4 "WWW/v1.2".toList
        = serveFile defaultStack exampleFS 4 "WWW/v1.2".toList "2".toList "HTTP/1.0 200 OK\r\n".toList ∧
      readAndSendFileData defaultStack exampleFS 4 "WWW/v1.2".toList
        ≠ serveDirectory defaultStack exampleFS 4 "WWW/v1.2".toList "HTTP/1.0 200 OK\r\n".toList ∧
      handleClient defaultStack exampleFS "WWW".toList 4 (some "GET /v1.2 HTTP/1.0\r\n\r\n".toList)
        = ⟨[], .threw⟩) := by
  refine ⟨⟨by decide, by decide, by decide, by decide, by decide, by decide⟩,
    ⟨by decide, by decide, by decide, by decide, by decide, by decide⟩⟩

/-- C4 (amended): for every accepted request whose resolved path exists, the handler takes the
directory branch if and only if the extension that `getFileExtension` computes from the resolved
path is empty, whether or not the path is a directory, and the file branch otherwise; the
connection is closed once the branch returns. -/
theorem handleClient_branch_by_extension (stack : Nat) (fs : FileSystem) (dir : Str) (client_sock : Int)
    (request : Str) (hacc : regexFormatCorrect request = true)
    (hex : fsExists fs (dir ++ getFileRequest request) = some true) :
    handleClient stack fs dir client_sock (some request)
      = (if getFileExtension (dir ++ getFileRequest request) = [] then
            serveDirectory stack fs client_sock (dir ++ getFileRequest request)
              "HTTP/1.0 200 OK\r\n".toList
          else
            serveFile stack fs client_sock (dir ++ getFileRequest request)
              (getFileExtension (dir ++ getFileRequest request))
              "HTTP/1.0 200 OK\r\n".toList).andThen
          ⟨[.close client_sock], .returned⟩ := by
  simp only [handleClient, hacc, hex, readAndSendFileData, Bool.not_true, Bool.false_eq_true,
    if_false]
  rfl

/-- Witness for C4 (amended): the request for the image `WWW/logo.png`, whose computed extension
is `png`, takes the file branch. -/
theorem handleClient_branch_by_extension_witness :
    regexFormatCorrect "GET /logo.png HTTP/1.0\r\n\r\n".toList = true ∧
      fsExists exampleFS ("WWW".toList ++ getFileRequest "GET /logo.png HTTP/1.0\r\n\r\n".toList)
        = some true ∧
      handleClient defaultStack exampleFS "WWW".toList 4 (some "GET /logo.png HTTP/1.0\r\n\r\n".toList)
        = (if getFileExtension
                ("WWW".toList ++ getFileRequest "GET /logo.png HTTP/1.0\r\n\r\n".toList) = [] then
              serveDirectory defaultStack exampleFS 4
                ("WWW".toList ++ getFileRequest "GET /logo.png HTTP/1.0\r\n\r\n".toList)
                "HTTP/1.0 200 OK\r\n".toList
            else
              serveFile defaultStack exampleFS 4
                ("WWW".toList ++ getFileRequest "GET /logo.png HTTP/1.0\r\n\r\n".toList)
                (getFileExtension
                  ("WWW".toList ++ getFileRequest "GET /logo.png HTTP/1.0\r\n\r\n".toList))
                "HTTP/1.0 200 OK\r\n".toList).andThen
            ⟨[.close 4], .returned⟩ :=
  ⟨by decide, by decide,
    handleClient_branch_by_extension defaultStack exampleFS "WWW".toList 4
      "GET /logo.png HTTP/1.0\r\n\r\n".toList (by decide) (by decide)⟩

/-! ## C5 -/

theorem wrapInt32_of_small (x : Int) (h0 : -2147483648 ≤ x) (h1 : x < 2147483648) :
    wrapInt32 x = x := by
  unfold wrapInt32
  omega

/-- A transport that takes every buffer whole delivers the buffer: `sendData` returns after one
call of `send`, and the wire holds exactly the data. -/
theorem sendData_whole_buffer (send : Nat → Nat → Int) (data : Str) (n : Nat)
    (hlen : data.length < 2147483648) (hsend : send 0 data.length = data.length) :
    sendData send data (n + 2) = some (.returned data) := by
  have hw : wrapInt32 (data.length : Int) = data.length :=
    wrapInt32_of_small _ (by omega) (by omega)
  by_cases h0 : data.length = 0
  · have : data = [] := List.length_eq_zero.mp h0
    subst this
    simp [sendData, sendDataLoop, wrapInt32]
  · have hne : (0 : Int) ≠ (data.length : Int) := by omega
    have hneg : (data.length : Int) ≠ -1 := by omega
    simp [sendData, sendDataLoop, hw, hsend, hne, hneg]

/-- C5: with the data `abcd` and a transport that never fails and takes two bytes per call
(between 1 and the 4 bytes requested), `sendData` terminates after two calls, but the transport
has received `abab`: every call offers the buffer from its first byte again, so the first two
bytes are written twice and the last two never. -/
theorem sendData_repeats_first_bytes :
    (∀ call : Nat, 1 ≤ twoByteTransport call 4 ∧ twoByteTransport call 4 ≤ 4) ∧
      (∀ n : Nat, sendData twoByteTransport "abcd".toList (n + 3)
        = some (.returned "abab".toList)) ∧
      "abab".toList ≠ "abcd".toList := by
  refine ⟨fun _ => by simp [twoByteTransport], ?_, by decide⟩
  intro n
  simp [sendData, sendDataLoop, twoByteTransport, wrapInt32]

/-! ## C6 and C7 -/

namespace BoundedBuffer

theorem putItem_some {b b1 : BoundedBuffer} {x : Int} (h : b.putItem x = some b1) :
    b.buffer.length ≠ b.capacity ∧ b1.capacity = b.capacity ∧ b1.buffer = b.buffer ++ [x] := by
  unfold putItem at h
  split at h
  · cases h
  · next hne =>
    simp only [Option.some.injEq] at h
    subst h
    exact ⟨hne, rfl, rfl⟩

theorem getItem_some {b b1 : BoundedBuffer} {item : Int} (h : b.getItem = some (item, b1)) :
    b1.capacity = b.capacity ∧ b.buffer = item :: b1.buffer := by
  unfold getItem at h
  split at h
  · cases h
  · next hne =>
    simp only [Option.some.injEq, Prod.mk.injEq] at h
    obtain ⟨h1, h2⟩ := h
    subst h2
    cases hb : b.buffer with
    | nil => simp [hb] at hne
    | cons y rest =>
      rw [hb] at h1
      simp only [List.headD_cons] at h1
      subst h1
      exact ⟨rfl, by simp [hb]⟩

/-- What was queued at the start followed by what is put equals what is returned followed by
what is queued at the end. -/
theorem run_conserves (ops : List Op) :
    ∀ (b b1 : BoundedBuffer) (items : List Int), run b ops = some (b1, items) →
      b.buffer ++ puts ops = items ++ b1.buffer := by
  induction ops with
  | nil =>
    intro b b1 items h
    simp only [run, Option.some.injEq, Prod.mk.injEq] at h
    obtain ⟨rfl, rfl⟩ := h
    simp [puts]
  | cons op ops ih =>
    intro b b1 items h
    cases op with
    | put x =>
      simp only [run] at h
      cases hp : b.putItem x with
      | none => simp [hp] at h
      | some b2 =>
        simp only [hp] at h
        have := ih b2 b1 items h
        rw [(putItem_some hp).2.2] at this
        simpa [puts] using this
    | get =>
      simp only [run] at h
      cases hg : b.getItem with
      | none => simp [hg] at h
      | some r =>
        obtain ⟨item, b2⟩ := r
        simp only [hg] at h
        cases hr : run b2 ops with
        | none => simp [hr] at h
        | some r2 =>
          obtain ⟨b3, items2⟩ := r2
          simp only [hr, Option.some.injEq, Prod.mk.injEq] at h
          obtain ⟨rfl, rfl⟩ := h
          have := ih b2 b3 items2 hr
          rw [(getItem_some hg).2]
          simpa [puts] using this

theorem reachable_invariant {max_size : Int} {b : BoundedBuffer} (h : Reachable max_size b) :
    b.capacity = (max_size % 4294967296).toNat ∧ b.buffer.length ≤ b.capacity := by
  induction h with
  | init => exact ⟨rfl, Nat.zero_le _⟩
  | put x _ hp ih =>
    obtain ⟨hne, hc, hb⟩ := putItem_some hp
    rw [hc, hb]
    refine ⟨ih.1, ?_⟩
    simp only [List.length_append, List.length_singleton]
    omega
  | get item _ hg ih =>
    obtain ⟨hc, hb⟩ := getItem_some hg
    rw [hc]
    refine ⟨ih.1, ?_⟩
    have := ih.2
    rw [hb] at this
    simp only [List.length_cons] at this
    omega

end BoundedBuffer

/-- C6: for every capacity (so for every capacity at least 1) and every sequence of completed
`putItem` and `getItem` operations on a buffer that starts empty, the values returned by
`getItem`, in order, are a prefix of the values passed to `putItem`, in order, and the values put
but not yet returned are exactly the queue contents, in insertion order. -/
theorem fifo_order (C : Int) (ops : List BoundedBuffer.Op) (b : BoundedBuffer)
    (items : List Int) (h : BoundedBuffer.run (BoundedBuffer.init C) ops = some (b, items)) :
    items <+: BoundedBuffer.puts ops ∧
      BoundedBuffer.puts ops = items ++ b.buffer ∧
      (BoundedBuffer.puts ops).drop items.length = b.buffer := by
  have hc := BoundedBuffer.run_conserves ops _ _ _ h
  simp only [BoundedBuffer.init, List.nil_append] at hc
  refine ⟨⟨b.buffer, hc.symm⟩, hc, ?_⟩
  rw [hc, List.drop_left]

/-- Witness for C6, with capacity 2: put 5, put 6, get, put 7, get returns 5 then 6 and leaves 7
queued. -/
theorem fifo_order_witness :
    BoundedBuffer.run (BoundedBuffer.init 2) [.put 5, .put 6, .get, .put 7, .get]
        = some (⟨2, [7]⟩, [5, 6]) ∧
      ([5, 6] <+: BoundedBuffer.puts [.put 5, .put 6, .get, .put 7, .get] ∧
        BoundedBuffer.puts [.put 5, .put 6, .get, .put 7, .get] = [5, 6] ++ [7] ∧
        (BoundedBuffer.puts [.put 5, .put 6, .get, .put 7, .get]).drop [5, 6].length = [7]) :=
  ⟨by decide,
    fifo_order 2 [.put 5, .put 6, .get, .put 7, .get] ⟨2, [7]⟩ [5, 6] (by decide)⟩

/-- C7: for every capacity `C` at least 1 and every state reachable from the empty buffer built
by `BoundedBuffer(C)` through `putItem` and `getItem` steps, each taking effect only when its wait
predicate is false, the queue length is between 0 and `C`. -/
theorem length_within_capacity (C : Int) (hC : 1 ≤ C) (b : BoundedBuffer)
    (h : BoundedBuffer.Reachable C b) :
    0 ≤ (b.buffer.length : Int) ∧ (b.buffer.length : Int) ≤ C := by
  obtain ⟨hcap, hlen⟩ := BoundedBuffer.reachable_invariant h
  refine ⟨Int.ofNat_nonneg _, ?_⟩
  rw [hcap] at hlen
  omega

/-- Witness for C7: with capacity 1, the state after one `putItem` is reachable and holds one
item. -/
theorem length_within_capacity_witness :
    (1 : Int) ≤ 1 ∧ BoundedBuffer.Reachable 1 ⟨1, [5]⟩ ∧
      (0 ≤ ((⟨1, [5]⟩ : BoundedBuffer).buffer.length : Int) ∧
        ((⟨1, [5]⟩ : BoundedBuffer).buffer.length : Int) ≤ 1) :=
  ⟨by decide, BoundedBuffer.Reachable.put 5 BoundedBuffer.Reachable.init (by decide),
    length_within_capacity 1 (by decide) ⟨1, [5]⟩
      (BoundedBuffer.Reachable.put 5 BoundedBuffer.Reachable.init (by decide))⟩

/-! ## C8 and C9 -/

/-- The header block sent by the file branch for a regular file. -/
theorem serveFile_events (stack : Nat) (fs : FileSystem) (src : Int) (filePath e buffer data : Str)
    (hfile : fs filePath = some (.file data)) :
    (serveFile stack fs src filePath e buffer).events
      = .sendData src (buffer ++ ("Content-length: ".toList ++ to_string (wrapInt32 data.length)
            ++ "\r\n".toList) ++ contentType e)
          :: (fileToBuffer stack fs src filePath).events := by
  have hs : file_size fs filePath = some data.length := by simp only [file_size, hfile]
  simp only [serveFile, hs, Run.andThen, Run.send]
  rfl

/-- On every extension that is neither an image extension nor `pdf`, the content type built by
the source is `text/` followed by the extension, a space and the charset parameter. -/
theorem contentType_text (e : Str) (h1 : isImage e = false) (h2 : e ≠ "pdf".toList) :
    contentType e = "Content-Type: text/".toList ++ e ++ " charset=iso-8859-1\r\n\r\n".toList := by
  simp only [contentType, h1, if_neg h2, Bool.false_eq_true, if_false]

set_option maxRecDepth 8000 in
/-- C8: the file `WWW/notes.xyz` has the extension `xyz`, which is non-empty and none of png,
jpg, gif, pdf; the header block sent for it carries the line
`Content-Type: text/xyz charset=iso-8859-1`, without the semicolon of the specified line, which
occurs nowhere in the bytes sent. -/
theorem text_content_type_lacks_semicolon :
    exampleFS "WWW/notes.xyz".toList = some (.file "hello".toList) ∧
      getFileExtension "WWW/notes.xyz".toList = "xyz".toList ∧
      readAndSendFileData defaultStack exampleFS 4 "WWW/notes.xyz".toList
        = ⟨[.sendData 4 ("HTTP/1.0 200 OK\r\n".toList ++ "Content-length: 5\r\n".toList
              ++ "Content-Type: text/xyz charset=iso-8859-1\r\n\r\n".toList),
            .sendData 4 "hello".toList], .returned⟩ ∧
      specContentTypeLine "xyz".toList = "Content-Type: text/xyz; charset=iso-8859-1".toList ∧
      ¬ (specContentTypeLine "xyz".toList
          <:+: (readAndSendFileData defaultStack exampleFS 4 "WWW/notes.xyz".toList).sentBytes) := by
  refine ⟨by decide, by decide, by decide, by decide, by decide⟩

/-- The content type of a regular file follows the extension that `getFileExtension` computes
from its path: when this is exactly png, jpg or gif, the header block sent ends with the line
`Content-Type: image/<e>`, and when it is exactly pdf with the line
`Content-Type: application/pdf`, each followed by the blank line; the source tests the image
extensions first, then pdf, then falls back to text. -/
theorem image_and_pdf_content_type (stack : Nat) (fs : FileSystem) (src : Int) (filePath data e : Str)
    (hfile : fs filePath = some (.file data)) (hext : getFileExtension filePath = e)
    (he : e = "png".toList ∨ e = "jpg".toList ∨ e = "gif".toList ∨ e = "pdf".toList) :
    (readAndSendFileData stack fs src filePath).events.head?
        = some (.sendData src ("HTTP/1.0 200 OK\r\n".toList
            ++ ("Content-length: ".toList ++ to_string (wrapInt32 data.length) ++ "\r\n".toList)
            ++ (specContentTypeLine e ++ "\r\n\r\n".toList))) ∧
      specContentTypeLine e
        = (if e = "pdf".toList then "Content-Type: application/pdf".toList
            else "Content-Type: image/".toList ++ e) ∧
      contentType e
        = (if isImage e then "Content-Type: image/".toList ++ e ++ "\r\n\r\n".toList
            else if e = "pdf".toList then
              "Content-Type: application/".toList ++ e ++ "\r\n\r\n".toList
            else "Content-Type: text/".toList ++ e ++ " charset=iso-8859-1\r\n\r\n".toList) := by
  have hne : e ≠ "".toList := by
    rcases he with rfl | rfl | rfl | rfl <;> decide
  have hct : contentType e = specContentTypeLine e ++ "\r\n\r\n".toList := by
    rcases he with rfl | rfl | rfl | rfl <;> decide
  have hspec : specContentTypeLine e
      = (if e = "pdf".toList then "Content-Type: application/pdf".toList
          else "Content-Type: image/".toList ++ e) := by
    rcases he with rfl | rfl | rfl | rfl <;> decide
  refine ⟨?_, hspec, rfl⟩
  have hrun : readAndSendFileData stack fs src filePath
      = serveFile stack fs src filePath e "HTTP/1.0 200 OK\r\n".toList := by
    simp only [readAndSendFileData, hext, if_neg hne]
    rfl
  rw [hrun, serveFile_events stack fs src filePath e _ data hfile, hct]
  rfl

/-- The rule table at the image `WWW/logo.png` and the document `WWW/doc.pdf` of the example. -/
theorem image_and_pdf_content_type_witness :
    ((readAndSendFileData defaultStack exampleFS 4 "WWW/logo.png".toList).events.head?
        = some (.sendData 4 ("HTTP/1.0 200 OK\r\n".toList
            ++ ("Content-length: ".toList ++ to_string (wrapInt32 "PNG".toList.length)
              ++ "\r\n".toList)
            ++ (specContentTypeLine "png".toList ++ "\r\n\r\n".toList))) ∧
      specContentTypeLine "png".toList
        = (if "png".toList = "pdf".toList then "Content-Type: application/pdf".toList
            else "Content-Type: image/".toList ++ "png".toList) ∧
      contentType "png".toList
        = (if isImage "png".toList then
              "Content-Type: image/".toList ++ "png".toList ++ "\r\n\r\n".toList
            else if "png".toList = "pdf".toList then
              "Content-Type: application/".toList ++ "png".toList ++ "\r\n\r\n".toList
            else
              "Content-Type: text/".toList ++ "png".toList
                ++ " charset=iso-8859-1\r\n\r\n".toList)) ∧
    ((readAndSendFileData defaultStack exampleFS 4 "WWW/doc.pdf".toList).events.head?
        = some (.sendData 4 ("HTTP/1.0 200 OK\r\n".toList
            ++ ("Content-length: ".toList ++ to_string (wrapInt32 "%PDF-1".toList.length)
              ++ "\r\n".toList)
            ++ (specContentTypeLine "pdf".toList ++ "\r\n\r\n".toList))) ∧
      specContentTypeLine "pdf".toList
        = (if "pdf".toList = "pdf".toList then "Content-Type: application/pdf".toList
            else "Content-Type: image/".toList ++ "pdf".toList) ∧
      contentType "pdf".toList
        = (if isImage "pdf".toList then
              "Content-Type: image/".toList ++ "pdf".toList ++ "\r\n\r\n".toList
            else if "pdf".toList = "pdf".toList then
              "Content-Type: application/".toList ++ "pdf".toList ++ "\r\n\r\n".toList
            else
              "Content-Type: text/".toList ++ "pdf".toList
                ++ " charset=iso-8859-1\r\n\r\n".toList)) :=
  ⟨image_and_pdf_content_type defaultStack exampleFS 4 "WWW/logo.png".toList "PNG".toList "png".toList
      (by decide) (by decide) (by decide),
    image_and_pdf_content_type defaultStack exampleFS 4 "WWW/doc.pdf".toList "%PDF-1".toList "pdf".toList
      (by decide) (by decide) (by decide)⟩

/-! ## C10 -/

theorem foldl_append_eq {α : Type} (f : α → Str) (xs : List α) :
    ∀ acc : Str, xs.foldl (fun text it => text ++ f it) acc = acc ++ (xs.map f).flatten := by
  induction xs with
  | nil => intro acc; simp
  | cons x xs ih =>
    intro acc
    simp only [List.foldl_cons, ih, List.map_cons, List.flatten_cons, List.append_assoc]

set_option maxRecDepth 8000 in
/-- C10, as stated, fails: for the single entry `a.txt` the listing holds one anchor, whose href
value is `a.txt/` and not the entry name; an anchor with the name as href occurs nowhere. -/
theorem generateHTMLDir_href_has_slash :
    generateHTMLDir ["a.txt".toList]
        = "<html>\n<body>\n<ul>\n".toList ++ "\t<li><a href=\"a.txt/\">a.txt</a></li>\n".toList
          ++ "</ul>\n</body>\n</html>".toList ∧
      ¬ (anchor "a.txt".toList "a.txt".toList <:+: generateHTMLDir ["a.txt".toList]) ∧
      ¬ ("href=\"a.txt\"".toList <:+: generateHTMLDir ["a.txt".toList]) := by
  refine ⟨by decide, by decide, by decide⟩

/-- C10 (amended): for every list of entry names, the HTML that `generateHTMLDir` returns is the
fixed opening, then one list item per entry, in input order, then the fixed closing; each item
holds one anchor whose href value is the entry name followed by `/` and whose text is the entry
name, both copied unchanged. -/
theorem generateHTMLDir_items (files : List Str) :
    generateHTMLDir files
      = "<html>\n<body>\n<ul>\n".toList
        ++ (files.map (fun name => listItem (anchor (name ++ "/".toList) name))).flatten
        ++ "</ul>\n</body>\n</html>".toList := by
  simp only [generateHTMLDir, foldl_append_eq]
  congr 2
  apply congrArg
  apply List.map_congr_left
  intro name _
  simp [listItem, anchor]

/-! ## The 404 body -/

set_option maxRecDepth 8000 in
theorem notFoundBody_length : notFoundBody.length = 178 := by decide

set_option maxRecDepth 8000 in
theorem to_string_notFoundBody_length : to_string notFoundBody.length = "178".toList := by decide

/-! ## C13 -/

theorem targetChar_ne_lf {c : Char} (h : targetChar c) : c ≠ '\n' := by
  rintro rfl
  rcases h with h | h | h | h | h <;> revert h <;> decide

theorem segments_no_lf {segs : List Str} (h : ∀ s ∈ segs, Segment s) :
    ∀ c ∈ segs.flatten, (c != '\n') = true := by
  intro c hc
  obtain ⟨s, hs, hcs⟩ := List.mem_flatten.mp hc
  obtain ⟨body, rfl, hbody⟩ := h s hs
  rcases List.mem_cons.mp hcs with rfl | hcb
  · decide
  · simpa using targetChar_ne_lf (hbody c hcb)

/-- The first line of a request line `GET <target> HTTP/1.0` ended by CR LF. -/
theorem firstLine_get (segs : List Str) (rest : Str) (hsegs : ∀ s ∈ segs, Segment s) :
    firstLine ("GET ".toList ++ segs.flatten ++ " HTTP/1.0\r\n".toList ++ rest)
      = "GET ".toList ++ segs.flatten ++ " HTTP/1.0\r".toList := by
  have hreq : "GET ".toList ++ segs.flatten ++ " HTTP/1.0\r\n".toList ++ rest
      = ("GET ".toList ++ segs.flatten ++ " HTTP/1.0\r".toList) ++ '\n' :: rest := by
    simp only [List.append_assoc]
    rfl
  have h1 : ∀ c ∈ "GET ".toList, (c != '\n') = true := by decide
  have h2 : ∀ c ∈ " HTTP/1.0\r".toList, (c != '\n') = true := by decide
  rw [hreq]
  apply takeWhile_append_stop _ _ _ _ _ (by decide)
  intro c hc
  rcases List.mem_append.mp hc with hc | hc
  · rcases List.mem_append.mp hc with hc | hc
    · exact h1 c hc
    · exact segments_no_lf hsegs c hc
  · exact h2 c hc

/-- C13: the request line `GET /a/../b HTTP/1.0\r\n` is accepted and resolved to the document root
followed by `/a/../b`, the `..` segment intact. More generally, for every target whose segments
use only the allowed characters (a segment `/..` is one of them), the request
`GET <target> HTTP/1.0\r\n` with anything after it is accepted, the resolved path is the document
root followed by the target unchanged, and the iteration runs the 404 or the 200 path, never the
400 one. -/
theorem dotdot_target_accepted (stack : Nat) (fs : FileSystem) (dir : Str) (client_sock : Int)
    (segs : List Str) (rest : Str) (hsegs : ∀ s ∈ segs, Segment s) :
    (regexFormatCorrect "GET /a/../b HTTP/1.0\r\n".toList = true ∧
      dir ++ getFileRequest "GET /a/../b HTTP/1.0\r\n".toList = dir ++ "/a/../b".toList) ∧
    Segment "/..".toList ∧
    regexFormatCorrect ("GET ".toList ++ segs.flatten ++ " HTTP/1.0\r\n".toList ++ rest) = true ∧
    dir ++ getFileRequest ("GET ".toList ++ segs.flatten ++ " HTTP/1.0\r\n".toList ++ rest)
      = dir ++ segs.flatten ∧
    handleClient stack fs dir client_sock
        (some ("GET ".toList ++ segs.flatten ++ " HTTP/1.0\r\n".toList ++ rest))
      = (match fsExists fs (dir ++ segs.flatten) with
          | none => (⟨[], .threw⟩ : Run)
          | some false => pageNotFound client_sock
          | some true => readAndSendFileData stack fs client_sock (dir ++ segs.flatten)).andThen
          ⟨[.close client_sock], .returned⟩ := by
  have hseg : Segment "/..".toList := by
    refine ⟨"..".toList, rfl, ?_⟩
    intro c hc
    have hc2 : c = '.' := by
      rcases List.mem_cons.mp hc with h | h
      · exact h
      · exact List.mem_singleton.mp h
    exact Or.inr (Or.inr (Or.inr (Or.inr hc2)))
  have hacc : regexFormatCorrect
      ("GET ".toList ++ segs.flatten ++ " HTTP/1.0\r\n".toList ++ rest) = true := by
    rw [regexFormatCorrect_iff, firstLine_get segs rest hsegs]
    refine ⟨segs.flatten, " ".toList, segs, " ".toList, '1', '0', "\r".toList, ?_, by decide,
      by decide, rfl, hsegs, by decide, by decide, by decide, ?_⟩
    · simp only [List.append_assoc]
      rfl
    · intro c hc
      exact List.mem_singleton.mp hc
  have hget : getFileRequest
      ("GET ".toList ++ segs.flatten ++ " HTTP/1.0\r\n".toList ++ rest) = segs.flatten := by
    have hreq : "GET ".toList ++ segs.flatten ++ " HTTP/1.0\r\n".toList ++ rest
        = "GET ".toList ++ segs.flatten ++ ' ' :: ("HTTP/1.0\r\n".toList ++ rest) := by
      simp only [List.append_assoc]
      rfl
    rw [hreq]
    exact getFileRequest_of_single_spaces segs _ hsegs
  refine ⟨⟨by decide, ?_⟩, hseg, hacc, by rw [hget], ?_⟩
  · have : getFileRequest "GET /a/../b HTTP/1.0\r\n".toList = "/a/../b".toList := by decide
    rw [this]
  · simp only [handleClient, hacc, hget, Bool.not_true, Bool.false_eq_true, if_false]

/-- Witness for C13: the target `/a/../b`, cut into the segments `/a`, `/..` and `/b`. -/
theorem dotdot_target_accepted_witness :
    (∀ s ∈ ["/a".toList, "/..".toList, "/b".toList], Segment s) ∧
    ((regexFormatCorrect "GET /a/../b HTTP/1.0\r\n".toList = true ∧
        "WWW".toList ++ getFileRequest "GET /a/../b HTTP/1.0\r\n".toList
          = "WWW".toList ++ "/a/../b".toList) ∧
      Segment "/..".toList ∧
      regexFormatCorrect ("GET ".toList ++ ["/a".toList, "/..".toList, "/b".toList].flatten
          ++ " HTTP/1.0\r\n".toList ++ []) = true ∧
      "WWW".toList ++ getFileRequest ("GET ".toList
          ++ ["/a".toList, "/..".toList, "/b".toList].flatten ++ " HTTP/1.0\r\n".toList ++ [])
        = "WWW".toList ++ ["/a".toList, "/..".toList, "/b".toList].flatten ∧
      handleClient defaultStack emptyFS "WWW".toList 4
          (some ("GET ".toList ++ ["/a".toList, "/..".toList, "/b".toList].flatten
            ++ " HTTP/1.0\r\n".toList ++ []))
        = (match fsExists emptyFS
                ("WWW".toList ++ ["/a".toList, "/..".toList, "/b".toList].flatten) with
            | none => (⟨[], .threw⟩ : Run)
            | some false => pageNotFound 4
            | some true =>
              readAndSendFileData defaultStack emptyFS 4
                ("WWW".toList ++ ["/a".toList, "/..".toList, "/b".toList].flatten)).andThen
            ⟨[.close 4], .returned⟩) := by
  have hsegs : ∀ s ∈ ["/a".toList, "/..".toList, "/b".toList], Segment s := by
    intro s hs
    have hs2 : s = "/a".toList ∨ s = "/..".toList ∨ s = "/b".toList := by
      simpa using hs
    rcases hs2 with rfl | rfl | rfl
    · exact ⟨"a".toList, rfl, fun c hc => by
        rw [List.mem_singleton.mp hc]; exact Or.inl (by decide)⟩
    · refine ⟨"..".toList, rfl, fun c hc => ?_⟩
      have hc2 : c = '.' := by
        rcases List.mem_cons.mp hc with h | h
        · exact h
        · exact List.mem_singleton.mp h
      exact Or.inr (Or.inr (Or.inr (Or.inr hc2)))
    · exact ⟨"b".toList, rfl, fun c hc => by
        rw [List.mem_singleton.mp hc]; exact Or.inl (by decide)⟩
  exact ⟨hsegs, dotdot_target_accepted defaultStack emptyFS "WWW".toList 4
    ["/a".toList, "/..".toList, "/b".toList] [] hsegs⟩

/-! ## C14 -/

namespace BoundedBuffer

theorem putItem_eq_none_iff (b : BoundedBuffer) (x : Int) :
    b.putItem x = none ↔ b.buffer.length = b.capacity := by
  unfold putItem
  split
  · next h => exact ⟨fun _ => h, fun _ => rfl⟩
  · next h => exact ⟨fun hn => (by cases hn), fun he => absurd he h⟩

theorem getItem_eq_none_iff (b : BoundedBuffer) :
    b.getItem = none ↔ b.buffer.length = 0 := by
  unfold getItem
  split
  · next h => exact ⟨fun _ => h, fun _ => rfl⟩
  · next h => exact ⟨fun hn => (by cases hn), fun he => absurd he h⟩

/-- From a full buffer, no sequence of operations that ends with a completed `putItem` is made of
`putItem` operations only. -/
theorem put_after_full_needs_get (b : BoundedBuffer) (ops : List Op) (x : Int)
    (r : BoundedBuffer × List Int) (hfull : b.buffer.length = b.capacity)
    (hrun : run b (ops ++ [.put x]) = some r) : Op.get ∈ ops := by
  have hblocked : ∀ y, b.putItem y = none := fun y => (putItem_eq_none_iff b y).mpr hfull
  cases ops with
  | nil => simp [run, hblocked x] at hrun
  | cons op rest =>
    cases op with
    | put y => simp [run, hblocked y] at hrun
    | get => exact List.mem_cons_self _ _

/-- From an empty buffer, no sequence of operations that ends with a completed `getItem` is made
of `getItem` operations only. -/
theorem get_after_empty_needs_put (b : BoundedBuffer) (ops : List Op)
    (r : BoundedBuffer × List Int) (hempty : b.buffer.length = 0)
    (hrun : run b (ops ++ [.get]) = some r) : ∃ x, Op.put x ∈ ops := by
  have hblocked : b.getItem = none := (getItem_eq_none_iff b).mpr hempty
  cases ops with
  | nil => simp [run, hblocked] at hrun
  | cons op rest =>
    cases op with
    | put y => exact ⟨y, List.mem_cons_self _ _⟩
    | get => simp [run, hblocked] at hrun

/-- A `putItem` that returns has pushed its item at the first wake-up at which the queue was not
full; at every earlier test of the loop condition the queue was full. -/
theorem putItemWait_some (x : Int) (states : List BoundedBuffer) (b1 : BoundedBuffer)
    (h : putItemWait x states = some b1) :
    ∃ (before : List BoundedBuffer) (b : BoundedBuffer) (after : List BoundedBuffer),
      states = before ++ b :: after ∧ (∀ p ∈ before, p.buffer.length = p.capacity) ∧
      b.buffer.length ≠ b.capacity ∧ b.putItem x = some b1 := by
  induction states with
  | nil => simp [putItemWait] at h
  | cons b0 later ih =>
    by_cases hfull : b0.buffer.length = b0.capacity
    · simp only [putItemWait, hfull, if_true] at h
      obtain ⟨before, b, after, hs, hb, hne, hp⟩ := ih h
      refine ⟨b0 :: before, b, after, by rw [hs]; rfl, ?_, hne, hp⟩
      intro p hp2
      rcases List.mem_cons.mp hp2 with rfl | hp3
      · exact hfull
      · exact hb p hp3
    · simp only [putItemWait, hfull, if_false] at h
      refine ⟨[], b0, later, rfl, fun p hp => absurd hp (List.not_mem_nil p), hfull, ?_⟩
      simp only [putItem, hfull, if_false]
      exact h

/-- A `getItem` that returns has taken the front item at the first wake-up at which the queue was
not empty; at every earlier test of the loop condition the queue was empty. -/
theorem getItemWait_some (states : List BoundedBuffer) (r : Int × BoundedBuffer)
    (h : getItemWait states = some r) :
    ∃ (before : List BoundedBuffer) (b : BoundedBuffer) (after : List BoundedBuffer),
      states = before ++ b :: after ∧ (∀ p ∈ before, p.buffer.length = 0) ∧
      b.buffer.length ≠ 0 ∧ b.getItem = some r := by
  induction states with
  | nil => simp [getItemWait] at h
  | cons b0 later ih =>
    by_cases hempty : b0.buffer.length = 0
    · simp only [getItemWait, hempty, if_true] at h
      obtain ⟨before, b, after, hs, hb, hne, hp⟩ := ih h
      refine ⟨b0 :: before, b, after, by rw [hs]; rfl, ?_, hne, hp⟩
      intro p hp2
      rcases List.mem_cons.mp hp2 with rfl | hp3
      · exact hempty
      · exact hb p hp3
    · simp only [getItemWait, hempty, if_false] at h
      refine ⟨[], b0, later, rfl, fun p hp => absurd hp (List.not_mem_nil p), hempty, ?_⟩
      simp only [getItem, hempty, if_false]
      exact h

end BoundedBuffer

/-- C14: a `putItem` step is enabled in no state where the queue length equals the capacity, and
a `getItem` step in no state where the queue is empty. From a full buffer, a sequence of completed
operations can end with a `putItem` only if a `getItem` step comes before it; from an empty
buffer, it can end with a `getItem` only if a `putItem` step comes before it. The caller of either
operation tests its wait predicate again after every wake-up and proceeds only at the first
wake-up at which the predicate is false. -/
theorem blocked_until_counterpart :
    (∀ (b : BoundedBuffer) (x : Int), b.buffer.length = b.capacity → b.putItem x = none) ∧
    (∀ b : BoundedBuffer, b.buffer.length = 0 → b.getItem = none) ∧
    (∀ (b : BoundedBuffer) (ops : List BoundedBuffer.Op) (x : Int)
        (r : BoundedBuffer × List Int), b.buffer.length = b.capacity →
        BoundedBuffer.run b (ops ++ [.put x]) = some r → BoundedBuffer.Op.get ∈ ops) ∧
    (∀ (b : BoundedBuffer) (ops : List BoundedBuffer.Op) (r : BoundedBuffer × List Int),
        b.buffer.length = 0 → BoundedBuffer.run b (ops ++ [.get]) = some r →
        ∃ x, BoundedBuffer.Op.put x ∈ ops) ∧
    (∀ (x : Int) (states : List BoundedBuffer) (b1 : BoundedBuffer),
        BoundedBuffer.putItemWait x states = some b1 →
        ∃ (before : List BoundedBuffer) (b : BoundedBuffer) (after : List BoundedBuffer),
          states = before ++ b :: after ∧ (∀ p ∈ before, p.buffer.length = p.capacity) ∧
          b.buffer.length ≠ b.capacity ∧ b.putItem x = some b1) ∧
    (∀ (states : List BoundedBuffer) (r : Int × BoundedBuffer),
        BoundedBuffer.getItemWait states = some r →
        ∃ (before : List BoundedBuffer) (b : BoundedBuffer) (after : List BoundedBuffer),
          states = before ++ b :: after ∧ (∀ p ∈ before, p.buffer.length = 0) ∧
          b.buffer.length ≠ 0 ∧ b.getItem = some r) :=
  ⟨fun b x h => (BoundedBuffer.putItem_eq_none_iff b x).mpr h,
    fun b h => (BoundedBuffer.getItem_eq_none_iff b).mpr h,
    fun b ops x r h1 h2 => BoundedBuffer.put_after_full_needs_get b ops x r h1 h2,
    fun b ops r h1 h2 => BoundedBuffer.get_after_empty_needs_put b ops r h1 h2,
    fun x states b1 h => BoundedBuffer.putItemWait_some x states b1 h,
    fun states r h => BoundedBuffer.getItemWait_some states r h⟩

/-- Witness for C14, with capacity 1. On the full buffer holding 5, `putItem` is blocked and the
sequence get, put 7 completes; on the empty buffer, `getItem` is blocked and the sequence put 7,
get completes. A caller of `putItem` that finds the buffer full twice and then empty pushes its
item on the empty one; a caller of `getItem` that finds it empty and then holding 5 takes 5. -/
theorem blocked_until_counterpart_witness :
    (⟨1, [5]⟩ : BoundedBuffer).putItem 7 = none ∧
    (⟨1, []⟩ : BoundedBuffer).getItem = none ∧
    (BoundedBuffer.run ⟨1, [5]⟩ ([.get] ++ [.put 7]) = some (⟨1, [7]⟩, [5]) ∧
      BoundedBuffer.Op.get ∈ [BoundedBuffer.Op.get]) ∧
    (BoundedBuffer.run ⟨1, []⟩ ([.put 7] ++ [.get]) = some (⟨1, []⟩, [7]) ∧
      ∃ x, BoundedBuffer.Op.put x ∈ [BoundedBuffer.Op.put 7]) ∧
    BoundedBuffer.putItemWait 7 [⟨1, [5]⟩, ⟨1, [6]⟩, ⟨1, []⟩] = some ⟨1, [7]⟩ ∧
    BoundedBuffer.getItemWait [⟨1, []⟩, ⟨1, [5]⟩] = some (5, ⟨1, []⟩) :=
  ⟨blocked_until_counterpart.1 ⟨1, [5]⟩ 7 (by decide),
    blocked_until_counterpart.2.1 ⟨1, []⟩ (by decide),
    ⟨by decide,
      blocked_until_counterpart.2.2.1 ⟨1, [5]⟩ [.get] 7 (⟨1, [7]⟩, [5]) (by decide) (by decide)⟩,
    ⟨by decide,
      blocked_until_counterpart.2.2.2.1 ⟨1, []⟩ [.put 7] (⟨1, []⟩, [7]) (by decide) (by decide)⟩,
    by decide, by decide⟩

/-! ## C15 -/

/-- When the path has a single dot, and no slash after it, the token returned by
`getFileExtension` is the extension of the file name. -/
theorem getFileExtension_single_dot (stem ext : Str) (hstem : '.' ∉ stem) (hext : '.' ∉ ext)
    (hslash : '/' ∉ ext) :
    getFileExtension (stem ++ '.' :: ext) = ext ∧ specExtension (stem ++ '.' :: ext) = ext := by
  have tw_all : ∀ (p : Char → Bool) (l : Str), (∀ c ∈ l, p c = true) → l.takeWhile p = l := by
    intro p l hl
    induction l with
    | nil => rfl
    | cons a l ih =>
      simp only [List.takeWhile_cons, hl a (List.mem_cons_self _ _), if_true]
      rw [ih (fun c hc => hl c (List.mem_cons_of_mem _ hc))]
  have dw_stop : ∀ (p : Char → Bool) (l : Str) (x : Char) (r : Str), (∀ c ∈ l, p c = true) →
      p x = false → (l ++ x :: r).dropWhile p = x :: r := by
    intro p l x r hl hx
    induction l with
    | nil => simp [List.dropWhile_cons, hx]
    | cons a l ih =>
      simp only [List.cons_append, List.dropWhile_cons, hl a (List.mem_cons_self _ _), if_true]
      exact ih (fun c hc => hl c (List.mem_cons_of_mem _ hc))
  have tw_app : ∀ (p : Char → Bool) (l r : Str), (∀ c ∈ l, p c = true) →
      (l ++ r).takeWhile p = l ++ r.takeWhile p := by
    intro p l r hl
    induction l with
    | nil => rfl
    | cons a l ih =>
      simp only [List.cons_append, List.takeWhile_cons, hl a (List.mem_cons_self _ _), if_true]
      rw [ih (fun c hc => hl c (List.mem_cons_of_mem _ hc))]
  have ne_of_not_mem : ∀ (x : Char) (l : Str), x ∉ l → ∀ c ∈ l, (c != x) = true := by
    intro x l hx c hc
    have : c ≠ x := fun h => hx (h ▸ hc)
    simpa using this
  constructor
  · have hd : (stem ++ '.' :: ext).dropWhile (fun c => c != '.') = '.' :: ext :=
      dw_stop _ stem '.' ext (ne_of_not_mem '.' stem hstem) (by decide)
    unfold getFileExtension getline
    simp only [hd]
    exact tw_all _ ext (ne_of_not_mem '.' ext hext)
  · have hrev : (stem ++ '.' :: ext).reverse = ext.reverse ++ '.' :: stem.reverse := by
      simp
    have hname : fileName (stem ++ '.' :: ext)
        = (stem.reverse.takeWhile (fun c => c != '/')).reverse ++ '.' :: ext := by
      unfold fileName
      rw [hrev, tw_app _ ext.reverse _
        (fun c hc => ne_of_not_mem '/' ext hslash c (List.mem_reverse.mp hc))]
      simp [List.takeWhile_cons]
    have hmem : '.' ∈ fileName (stem ++ '.' :: ext) := by
      rw [hname]; simp
    have hnrev : (fileName (stem ++ '.' :: ext)).reverse
        = ext.reverse ++ '.' :: stem.reverse.takeWhile (fun c => c != '/') := by
      rw [hname]; simp
    simp only [specExtension, hmem, if_true, hnrev]
    rw [takeWhile_append_stop _ ext.reverse '.' _
      (fun c hc => ne_of_not_mem '.' ext hext c (List.mem_reverse.mp hc)) (by decide)]
    exact List.reverse_reverse ext

set_option maxRecDepth 8000 in
/-- C15: for the resolved path `WWW/archive.tar.gz` the extension of the file name is `gz`, but
`getFileExtension` returns `tar`, the text between the first and the second dot of the whole
path, and the file is served as `text/tar`. In the same way `WWW/v1.2/README`, whose file name has
no dot, gets `2/README`, and `./WWW/index.html` gets `/WWW/index` instead of `html`. -/
theorem getFileExtension_takes_second_token :
    (regexFormatCorrect "GET /archive.tar.gz HTTP/1.0\r\n\r\n".toList = true ∧
      "WWW".toList ++ getFileRequest "GET /archive.tar.gz HTTP/1.0\r\n\r\n".toList
        = "WWW/archive.tar.gz".toList ∧
      specExtension "WWW/archive.tar.gz".toList = "gz".toList ∧
      getFileExtension "WWW/archive.tar.gz".toList = "tar".toList ∧
      handleClient defaultStack siteFS "WWW".toList 4 (some "GET /archive.tar.gz HTTP/1.0\r\n\r\n".toList)
        = ⟨[.sendData 4 ("HTTP/1.0 200 OK\r\n".toList ++ "Content-length: 4\r\n".toList
              ++ "Content-Type: text/tar charset=iso-8859-1\r\n\r\n".toList),
            .sendData 4 "gzip".toList, .close 4], .returned⟩) ∧
    (specExtension "WWW/v1.2/README".toList = [] ∧
      getFileExtension "WWW/v1.2/README".toList = "2/README".toList) ∧
    (specExtension "./WWW/index.html".toList = "html".toList ∧
      getFileExtension "./WWW/index.html".toList = "/WWW/index".toList) := by
  refine ⟨⟨by decide, by decide, by decide, by decide, by decide⟩, ⟨by decide, by decide⟩,
    ⟨by decide, by decide⟩⟩

/-! ## The directory branch -/

theorem readLoop_zero (fuel : Nat) (unread file_data : Str) :
    readLoop 0 fuel unread file_data = none := by
  induction fuel generalizing unread file_data with
  | zero => rfl
  | succ fuel ih =>
    simp only [readLoop, List.take_zero, List.length_nil, if_true]
    exact ih _ _

theorem entryPath_prefix (dir name : Str) : ∃ tail, entryPath dir name = dir ++ tail := by
  unfold entryPath
  split
  · exact ⟨name, rfl⟩
  · exact ⟨'/' :: name, rfl⟩

/-- The loop over a directory without `index.html` leaves, for every entry and in enumeration
order, the path of the entry without its first three characters. -/
theorem scanDirectory_listing (stack : Nat) (fs : FileSystem) (src : Int) (filePath buffer : Str)
    (names : List Str) (hidx : "index.html".toList ∉ names)
    (hpaths : ∀ n ∈ names, 3 ≤ (entryPath filePath n).length) :
    ∀ fileList : List Str, scanDirectory stack fs src filePath buffer names fileList
      = .listing (fileList ++ names.map (fun n => (entryPath filePath n).drop 3)) := by
  induction names with
  | nil => intro fileList; simp [scanDirectory]
  | cons name rest ih =>
    intro fileList
    have hname : name ≠ "index.html".toList := fun h => hidx (h ▸ List.mem_cons_self _ _)
    have hlen : ¬ (entryPath filePath name).length < 3 :=
      Nat.not_lt.mpr (hpaths name (List.mem_cons_self _ _))
    rw [scanDirectory]
    simp only [if_neg hname, if_neg hlen, List.dropLast_concat]
    rw [ih (fun h => hidx (List.mem_cons_of_mem _ h))
      (fun n hn => hpaths n (List.mem_cons_of_mem _ hn))]
    simp

set_option maxRecDepth 8000 in
/-- C16, as stated, fails. For the directory `WWW/sub`, whose only entry is `b.txt`, the string
passed to `generateHTMLDir` is `/sub/b.txt`, the path of the entry without its first three
characters, and not the name `b.txt`. For the document root `public` the string passed for the
entry `a.txt` is `lic/a.txt`. -/
theorem listing_strings_are_not_names :
    (siteFS "WWW/sub".toList = some (.dir ["b.txt".toList]) ∧
      scanDirectory defaultStack siteFS 4 "WWW/sub".toList "HTTP/1.0 200 OK\r\n".toList ["b.txt".toList] []
        = .listing ["/sub/b.txt".toList] ∧
      readAndSendFileData defaultStack siteFS 4 "WWW/sub".toList
        = Run.send 4 ("HTTP/1.0 200 OK\r\n".toList ++ "Content-length: 87\r\n".toList
            ++ "Content-Type: text/html charset=iso-8859-1\r\n\r\n".toList
            ++ generateHTMLDir ["/sub/b.txt".toList]) ∧
      generateHTMLDir ["/sub/b.txt".toList] ≠ generateHTMLDir ["b.txt".toList]) ∧
    (publicFS "public".toList = some (.dir ["a.txt".toList]) ∧
      scanDirectory defaultStack publicFS 4 "public".toList "HTTP/1.0 200 OK\r\n".toList ["a.txt".toList] []
        = .listing ["lic/a.txt".toList] ∧
      readAndSendFileData defaultStack publicFS 4 "public".toList
        = Run.send 4 ("HTTP/1.0 200 OK\r\n".toList ++ "Content-length: 85\r\n".toList
            ++ "Content-Type: text/html charset=iso-8859-1\r\n\r\n".toList
            ++ generateHTMLDir ["lic/a.txt".toList])) := by
  refine ⟨⟨by decide, by decide, by decide, by decide⟩, ⟨by decide, by decide, by decide⟩⟩

/-- C16 (amended): for every document root of three characters and every directory without
`index.html` that is served by the directory branch (the extension computed from its path is
empty), each string that `readAndSendFileData` passes to `generateHTMLDir` is the path of one
entry directly under that directory with the document root removed from its front, one string per
entry, in enumeration order; and, the listing being shorter than 2147483648 bytes, the
`Content-length` sent is the byte length of the generated listing, which is the body sent. -/
theorem listing_strings (stack : Nat) (fs : FileSystem) (src : Int) (dir rel : Str) (names : List Str)
    (hroot : dir.length = 3)
    (hdir : fs (dir ++ rel) = some (.dir names))
    (hidx : "index.html".toList ∉ names)
    (hext : getFileExtension (dir ++ rel) = [])
    (hlen : (generateHTMLDir
      (names.map (fun n => (entryPath (dir ++ rel) n).drop 3))).length < 2147483648) :
    ∃ fileList : List Str,
      scanDirectory stack fs src (dir ++ rel) "HTTP/1.0 200 OK\r\n".toList names []
        = .listing fileList ∧
      fileList.length = names.length ∧
      fileList.map (fun s => dir ++ s) = names.map (entryPath (dir ++ rel)) ∧
      readAndSendFileData stack fs src (dir ++ rel)
        = Run.send src ("HTTP/1.0 200 OK\r\n".toList
            ++ ("Content-length: ".toList ++ to_string (generateHTMLDir fileList).length
              ++ "\r\n".toList)
            ++ "Content-Type: text/html charset=iso-8859-1\r\n\r\n".toList
            ++ generateHTMLDir fileList) := by
  have hpaths : ∀ n ∈ names, 3 ≤ (entryPath (dir ++ rel) n).length := by
    intro n _
    obtain ⟨tail, ht⟩ := entryPath_prefix (dir ++ rel) n
    rw [ht]
    simp only [List.length_append]
    omega
  have hscan := scanDirectory_listing stack fs src (dir ++ rel) "HTTP/1.0 200 OK\r\n".toList names
    hidx hpaths []
  rw [List.nil_append] at hscan
  have hw : wrapInt32 ((generateHTMLDir
      (names.map (fun n => (entryPath (dir ++ rel) n).drop 3))).length : Int)
      = (generateHTMLDir (names.map (fun n => (entryPath (dir ++ rel) n).drop 3))).length :=
    wrapInt32_of_small _ (by omega) (by omega)
  refine ⟨names.map (fun n => (entryPath (dir ++ rel) n).drop 3), hscan, List.length_map _ _,
    ?_, ?_⟩
  · rw [List.map_map]
    apply List.map_congr_left
    intro n _
    obtain ⟨tail, ht⟩ := entryPath_prefix (dir ++ rel) n
    simp only [Function.comp, ht, List.append_assoc]
    rw [List.drop_left' hroot]
  · have hnil : ("".toList : Str) = [] := rfl
    simp only [readAndSendFileData, hext, hnil, if_true, serveDirectory, hdir, List.nil_append,
      hscan, hw]

/-- Witness for C16 (amended): the directory `WWW/sub` under the document root `WWW`. -/
theorem listing_strings_witness :
    "WWW".toList.length = 3 ∧
      siteFS ("WWW".toList ++ "/sub".toList) = some (.dir ["b.txt".toList]) ∧
      "index.html".toList ∉ ["b.txt".toList] ∧
      getFileExtension ("WWW".toList ++ "/sub".toList) = [] ∧
      (generateHTMLDir (["b.txt".toList].map
        (fun n => (entryPath ("WWW".toList ++ "/sub".toList) n).drop 3))).length
          < 2147483648 ∧
      ∃ fileList : List Str,
        scanDirectory defaultStack siteFS 4 ("WWW".toList ++ "/sub".toList) "HTTP/1.0 200 OK\r\n".toList
            ["b.txt".toList] []
          = .listing fileList ∧
        fileList.length = ["b.txt".toList].length ∧
        fileList.map (fun s => "WWW".toList ++ s)
          = ["b.txt".toList].map (entryPath ("WWW".toList ++ "/sub".toList)) ∧
        readAndSendFileData defaultStack siteFS 4 ("WWW".toList ++ "/sub".toList)
          = Run.send 4 ("HTTP/1.0 200 OK\r\n".toList
              ++ ("Content-length: ".toList ++ to_string (generateHTMLDir fileList).length
                ++ "\r\n".toList)
              ++ "Content-Type: text/html charset=iso-8859-1\r\n\r\n".toList
              ++ generateHTMLDir fileList) :=
  ⟨by decide, by decide, by decide, by decide, by decide,
    listing_strings defaultStack siteFS 4 "WWW".toList "/sub".toList ["b.txt".toList] (by decide) (by decide)
      (by decide) (by decide) (by decide)⟩

/-! ## C17 -/

theorem isResponse_send (src : Int) (data : Str) : (Run.send src data).IsResponse src := by
  refine ⟨?_, fun _ => by simp [Run.send]⟩
  intro e he
  exact ⟨data, List.mem_singleton.mp he⟩

theorem isResponse_failed (src : Int) (o : Outcome) (ho : o ≠ .returned) :
    (⟨[], o⟩ : Run).IsResponse src :=
  ⟨fun e he => absurd he (List.not_mem_nil e), fun h => absurd h ho⟩

theorem isResponse_send_andThen (src : Int) (data : Str) (r : Run)
    (hr : ∀ e ∈ r.events, ∃ d, e = Event.sendData src d) :
    ((Run.send src data).andThen r).IsResponse src := by
  have hev : ((Run.send src data).andThen r).events = .sendData src data :: r.events := rfl
  refine ⟨?_, fun _ => by rw [hev]; exact List.cons_ne_nil _ _⟩
  intro e he
  rw [hev] at he
  rcases List.mem_cons.mp he with rfl | he
  · exact ⟨data, rfl⟩
  · exact hr e he

theorem isResponse_fileToBuffer (stack : Nat) (fs : FileSystem) (src : Int) (filename : Str) :
    (fileToBuffer stack fs src filename).IsResponse src := by
  unfold fileToBuffer
  split
  · dsimp only
    split
    · exact isResponse_failed src _ (by decide)
    · split
      · exact isResponse_send src _
      · exact isResponse_failed src _ (by decide)
  · exact isResponse_failed src _ (by decide)

theorem isResponse_scanDirectory (stack : Nat) (fs : FileSystem) (src : Int) (filePath buffer : Str)
    (names : List Str) :
    ∀ (fileList : List Str) (r : Run),
      scanDirectory stack fs src filePath buffer names fileList = .done r → r.IsResponse src := by
  induction names with
  | nil =>
    intro fileList r h
    simp [scanDirectory] at h
  | cons name rest ih =>
    intro fileList r h
    rw [scanDirectory] at h
    by_cases hname : name = "index.html".toList
    · simp only [hname, if_true] at h
      cases hs : file_size fs (filePath ++ "/index.html".toList) with
      | none =>
        simp only [hs, Scan.done.injEq] at h
        subst h
        exact isResponse_failed src _ (by decide)
      | some size =>
        simp only [hs, Scan.done.injEq] at h
        subst h
        exact isResponse_send_andThen src _ _ (isResponse_fileToBuffer stack fs src _).1
    · simp only [if_neg hname] at h
      by_cases hlen : (entryPath filePath name).length < 3
      · simp only [if_pos hlen, Scan.done.injEq] at h
        subst h
        exact isResponse_failed src _ (by decide)
      · simp only [if_neg hlen] at h
        exact ih _ r h

theorem isResponse_readAndSendFileData (stack : Nat) (fs : FileSystem) (src : Int) (filePath : Str) :
    (readAndSendFileData stack fs src filePath).IsResponse src := by
  unfold readAndSendFileData
  dsimp only
  split
  · unfold serveDirectory
    split
    · split
      · next r hscan => exact isResponse_scanDirectory stack fs src _ _ _ _ r hscan
      · exact isResponse_send src _
    · exact isResponse_failed src _ (by decide)
  · unfold serveFile
    dsimp only
    split
    · exact isResponse_failed src _ (by decide)
    · exact isResponse_send_andThen src _ _ (isResponse_fileToBuffer stack fs src _).1

/-- When the iteration of `handleClient` returns, it has sent a response and then closed the
connection, exactly once and after the last send. -/
theorem handleClient_returned (stack : Nat) (fs : FileSystem) (dir : Str) (client_sock : Int)
    (request : Str)
    (h : (handleClient stack fs dir client_sock (some request)).outcome = .returned) :
    ∃ sends : List Event,
      (handleClient stack fs dir client_sock (some request)).events = sends ++ [.close client_sock] ∧
      sends ≠ [] ∧ ∀ e ∈ sends, ∃ data, e = Event.sendData client_sock data := by
  have key : ∀ response : Run, response.IsResponse client_sock →
      (response.andThen ⟨[.close client_sock], .returned⟩).outcome = .returned →
      ∃ sends : List Event,
        (response.andThen ⟨[.close client_sock], .returned⟩).events
          = sends ++ [.close client_sock] ∧
        sends ≠ [] ∧ ∀ e ∈ sends, ∃ data, e = Event.sendData client_sock data := by
    intro response hresp hout
    obtain ⟨events, outcome⟩ := response
    cases outcome with
    | returned =>
      exact ⟨events, rfl, hresp.2 rfl, hresp.1⟩
    | threw => simp [Run.andThen] at hout
    | hangs => simp [Run.andThen] at hout
    | killed => simp [Run.andThen] at hout
  have hresp : (if (!regexFormatCorrect request) = true then sendBadReq client_sock
      else
        match fsExists fs (dir ++ getFileRequest request) with
        | none => (⟨[], .threw⟩ : Run)
        | some false => pageNotFound client_sock
        | some true =>
          readAndSendFileData stack fs client_sock (dir ++ getFileRequest request)).IsResponse
        client_sock := by
    split
    · exact isResponse_send client_sock _
    · split
      · exact isResponse_failed client_sock _ (by decide)
      · exact isResponse_send_andThen client_sock _ _ (isResponse_send client_sock _).1
      · exact isResponse_readAndSendFileData stack fs client_sock _
  exact key _ hresp h

set_option maxRecDepth 8000 in
/-- C17: `WWW/empty.txt` is an existing, empty regular file and the request for it is accepted.
The iteration sends the header block of a 200 response and then stays for ever in the reading
loop of `fileToBuffer`, whose `read` of zero bytes never reaches the end of the file, whatever
the number of iterations: the connection is never closed. For the extensionless regular file
`WWW/README` the directory iteration throws: nothing is sent and the connection is not closed
either. No `send` or `recv` fails in these runs. -/
theorem empty_file_never_closed :
    (regexFormatCorrect "GET /empty.txt HTTP/1.0\r\n\r\n".toList = true ∧
      siteFS ("WWW".toList ++ getFileRequest "GET /empty.txt HTTP/1.0\r\n\r\n".toList)
        = some (.file []) ∧
      handleClient defaultStack siteFS "WWW".toList 4 (some "GET /empty.txt HTTP/1.0\r\n\r\n".toList)
        = ⟨[.sendData 4 ("HTTP/1.0 200 OK\r\n".toList ++ "Content-length: 0\r\n".toList
              ++ "Content-Type: text/txt charset=iso-8859-1\r\n\r\n".toList)], .hangs⟩ ∧
      Event.close 4 ∉
        (handleClient defaultStack siteFS "WWW".toList 4
          (some "GET /empty.txt HTTP/1.0\r\n\r\n".toList)).events ∧
      ∀ (fuel : Nat) (unread file_data : Str), readLoop 0 fuel unread file_data = none) ∧
    (regexFormatCorrect "GET /README HTTP/1.0\r\n\r\n".toList = true ∧
      exampleFS ("WWW".toList ++ getFileRequest "GET /README HTTP/1.0\r\n\r\n".toList)
        = some (.file "hello".toList) ∧
      handleClient defaultStack exampleFS "WWW".toList 4 (some "GET /README HTTP/1.0\r\n\r\n".toList)
        = ⟨[], .threw⟩) := by
  refine ⟨⟨by decide, by decide, by decide, by decide, readLoop_zero⟩,
    ⟨by decide, by decide, by decide⟩⟩

/-! ## Runs on a transport -/

/-- On a transport that takes every buffer whole, a call of `sendData` with fewer than 2147483648
bytes puts exactly these bytes on the wire and returns, so that the next call is made. -/
theorem performFrom_sendData_whole (transport : Transport) (n : Nat) (outcome : Outcome)
    (src : Int) (data : Str) (rest : List Event) (k : Nat) (s : Served)
    (hwhole : ∀ k size, transport k 0 size = size) (hlen : data.length < 2147483648) :
    Run.performFrom transport (n + 2) outcome (.sendData src data :: rest) k s
      = Run.performFrom transport (n + 2) outcome rest (k + 1)
          { s with wire := s.wire ++ data } := by
  have hs := sendData_whole_buffer (transport k) data n hlen (hwhole k data.length)
  rw [Run.performFrom, hs]

theorem performFrom_close (transport : Transport) (fuel : Nat) (outcome : Outcome)
    (socket : Int) (rest : List Event) (k : Nat) (s : Served) :
    Run.performFrom transport fuel outcome (.close socket :: rest) k s
      = Run.performFrom transport fuel outcome rest k
          { s with closes := s.closes ++ [socket] } := rfl

theorem performFrom_nil (transport : Transport) (fuel : Nat) (outcome : Outcome) (k : Nat)
    (s : Served) :
    Run.performFrom transport fuel outcome [] k s = { s with outcome := outcome } := rfl

/-! ## C3 -/

/-- The first line `GET / HTTP/1.0` followed by two carriage returns is not of the form that the
specification words, whose trailer is at most one CR/LF. -/
theorem repeated_cr_not_optional :
    ¬ ∃ target, ParsedLine OptionalCRLF (firstLine "GET / HTTP/1.0\r\r\n".toList) target := by
  rintro ⟨target, h⟩
  obtain ⟨pre, d2, tr, hline, hd, htr⟩ := h.ends
  have hfl : firstLine "GET / HTTP/1.0\r\r\n".toList = "GET / HTTP/1.0\r\r".toList := by decide
  rw [hfl] at hline
  have hrev := congrArg List.reverse hline
  rcases htr with rfl | rfl | rfl | rfl
  · simp at hrev
    rw [← hrev.1] at hd
    exact absurd hd (by decide)
  · simp at hrev
    rw [← hrev.1] at hd
    exact absurd hd (by decide)
  · simp at hrev
  · simp at hrev

set_option maxRecDepth 20000 in
/-- C3, as stated, fails. The first line of `GET / HTTP/1.0\r\r\n` is rejected by the grammar of
the specification, yet the request is accepted by the pattern and, the path not existing, is
answered with the 404 response. And on a transport whose `send` takes two bytes at a time, never
failing, the rejected request `POST / HTTP/1.0\r\n\r\n` puts the first two bytes of the 400
status line on the connection fourteen times, not the status line. -/
theorem bad_request_needs_pattern_and_whole_sends :
    ((¬ ∃ target, ParsedLine OptionalCRLF (firstLine "GET / HTTP/1.0\r\r\n".toList) target) ∧
      (handleClient defaultStack emptyFS "WWW".toList 4
          (some "GET / HTTP/1.0\r\r\n".toList)).perform wholeTransport 2
        = ⟨"HTTP/1.0 404 PAGE NOT FOUND\r\n".toList ++ "Content-length: 178\r\n".toList
            ++ "Content-Type: text/html\r\n\r\n".toList ++ notFoundBody, [4], .returned⟩) ∧
    (regexFormatCorrect "POST / HTTP/1.0\r\n\r\n".toList = false ∧
      (∀ k j, 1 ≤ slowTransport k j 28 ∧ slowTransport k j 28 ≤ 28) ∧
      (handleClient defaultStack emptyFS "WWW".toList 4
          (some "POST / HTTP/1.0\r\n\r\n".toList)).perform slowTransport 15
        = ⟨(List.replicate 14 "HT".toList).flatten, [4], .returned⟩ ∧
      (List.replicate 14 "HT".toList).flatten ≠ "HTTP/1.0 400 BAD REQUEST\r\n\r\n".toList) := by
  refine ⟨⟨repeated_cr_not_optional, by decide⟩, ⟨by decide, ?_, by decide, by decide⟩⟩
  intro k j
  simp [slowTransport, twoByteTransport]

/-- C3 (amended): for every request that `regexFormatCorrect` rejects, that is, whose first line
is not of the form `GET`, spaces, target, spaces, `HTTP/`, digit, dot, digit and any number of
carriage returns, for every state of the file system, and on a transport whose `send` takes every
buffer whole, the bytes that one iteration of `handleClient` puts on the connection are exactly
`HTTP/1.0 400 BAD REQUEST\r\n\r\n`, with no body, even when the path parsed from the request
exists; the connection is then closed. -/
theorem handleClient_bad_request (stack : Nat) (fs : FileSystem) (dir : Str) (client_sock : Int)
    (request : Str) (transport : Transport) (n : Nat)
    (hrej : ¬ ∃ target, ParsedLine CarriageReturns (firstLine request) target)
    (hwhole : ∀ k size, transport k 0 size = size) :
    handleClient stack fs dir client_sock (some request)
        = ⟨[.sendData client_sock "HTTP/1.0 400 BAD REQUEST\r\n\r\n".toList, .close client_sock],
            .returned⟩ ∧
      (handleClient stack fs dir client_sock (some request)).perform transport (n + 2)
        = ⟨"HTTP/1.0 400 BAD REQUEST\r\n\r\n".toList, [client_sock], .returned⟩ := by
  have h : regexFormatCorrect request = false := by
    cases hacc : regexFormatCorrect request with
    | false => rfl
    | true => exact absurd ((regexFormatCorrect_iff request).mp hacc) hrej
  have hrun : handleClient stack fs dir client_sock (some request)
      = ⟨[.sendData client_sock "HTTP/1.0 400 BAD REQUEST\r\n\r\n".toList, .close client_sock],
          .returned⟩ := by
    simp only [handleClient, h, Bool.not_false, if_true]
    rfl
  refine ⟨hrun, ?_⟩
  rw [hrun]
  unfold Run.perform
  rw [performFrom_sendData_whole transport n _ _ _ _ _ _ hwhole
    (by decide : "HTTP/1.0 400 BAD REQUEST\r\n\r\n".toList.length < 2147483648),
    performFrom_close, performFrom_nil]
  rfl

/-- Witness for C3 (amended): the request `POST / HTTP/1.0\r\n\r\n` is rejected and answered with
the bare 400 status line, here in a file system where the parsed path exists and on the transport
that takes every buffer whole. -/
theorem handleClient_bad_request_witness :
    (¬ ∃ target, ParsedLine CarriageReturns (firstLine "POST / HTTP/1.0\r\n\r\n".toList)
        target) ∧
      (∀ k size, wholeTransport k 0 size = size) ∧
      fsExists everywhereFS ("WWW".toList ++ getFileRequest "POST / HTTP/1.0\r\n\r\n".toList)
        = some true ∧
      (handleClient defaultStack everywhereFS "WWW".toList 4
            (some "POST / HTTP/1.0\r\n\r\n".toList)
          = ⟨[.sendData 4 "HTTP/1.0 400 BAD REQUEST\r\n\r\n".toList, .close 4], .returned⟩ ∧
        (handleClient defaultStack everywhereFS "WWW".toList 4
            (some "POST / HTTP/1.0\r\n\r\n".toList)).perform wholeTransport (0 + 2)
          = ⟨"HTTP/1.0 400 BAD REQUEST\r\n\r\n".toList, [4], .returned⟩) := by
  have hrej : ¬ ∃ target,
      ParsedLine CarriageReturns (firstLine "POST / HTTP/1.0\r\n\r\n".toList) target := by
    intro h
    have hacc := (regexFormatCorrect_iff "POST / HTTP/1.0\r\n\r\n".toList).mpr h
    revert hacc
    decide
  exact ⟨hrej, fun _ _ => rfl, by decide,
    handleClient_bad_request defaultStack everywhereFS "WWW".toList 4
      "POST / HTTP/1.0\r\n\r\n".toList wholeTransport 0 hrej (fun _ _ => rfl)⟩

/-! ## Requests of the form `GET <target> HTTP/1.0` -/

theorem regexFormatCorrect_get (segs : List Str) (rest : Str) (hsegs : ∀ s ∈ segs, Segment s) :
    regexFormatCorrect ("GET ".toList ++ segs.flatten ++ " HTTP/1.0\r\n".toList ++ rest)
      = true := by
  rw [regexFormatCorrect_iff, firstLine_get segs rest hsegs]
  refine ⟨segs.flatten, " ".toList, segs, " ".toList, '1', '0', "\r".toList, ?_, by decide,
    by decide, rfl, hsegs, by decide, by decide, by decide, ?_⟩
  · simp only [List.append_assoc]
    rfl
  · intro c hc
    exact List.mem_singleton.mp hc

theorem getFileRequest_get (segs : List Str) (rest : Str) (hsegs : ∀ s ∈ segs, Segment s) :
    getFileRequest ("GET ".toList ++ segs.flatten ++ " HTTP/1.0\r\n".toList ++ rest)
      = segs.flatten := by
  have hreq : "GET ".toList ++ segs.flatten ++ " HTTP/1.0\r\n".toList ++ rest
      = "GET ".toList ++ segs.flatten ++ ' ' :: ("HTTP/1.0\r\n".toList ++ rest) := by
    simp only [List.append_assoc]
    rfl
  rw [hreq]
  exact getFileRequest_of_single_spaces segs _ hsegs

/-! ## A transport that takes two bytes at a time -/

/-- Where the loop of `sendData` ends within the bound, `sendDataWire` gives the bytes it has put
on the wire. -/
theorem sendDataWire_of_ended (send : Nat → Nat → Int) (data : Str) :
    ∀ (fuel call : Nat) (totalBytesSent : Int) (wire : Str) (r : SendResult),
      sendDataLoop send data fuel call totalBytesSent wire = some r →
      sendDataWire send data fuel call totalBytesSent wire
        = (match r with
          | .returned w => w
          | .threw w => w) := by
  intro fuel
  induction fuel with
  | zero =>
    intro call total wire r h
    simp only [sendDataLoop] at h
    cases h
  | succ fuel ih =>
    intro call total wire r h
    rw [sendDataLoop] at h
    rw [sendDataWire]
    dsimp only at h ⊢
    by_cases hne : total ≠ wrapInt32 data.length
    · rw [if_pos hne] at h ⊢
      by_cases hfail : wrapInt32 (send call data.length) = -1
      · rw [if_pos hfail] at h ⊢
        cases h
        rfl
      · rw [if_neg hfail] at h ⊢
        exact ih _ _ _ r h
    · rw [if_neg hne] at h ⊢
      cases h
      rfl

/-- On the transport that takes two bytes per call, the loop of `sendData` puts the first two
bytes of a buffer of odd length on the wire in each iteration, as long as it runs. -/
theorem sendDataWire_odd (data : Str) (hodd : data.length % 2 = 1) (htwo : 2 ≤ data.length)
    (hlen : data.length < 2147483648) :
    ∀ (fuel call : Nat) (totalBytesSent : Int) (wire : Str), totalBytesSent % 2 = 0 →
      sendDataWire twoByteTransport data fuel call totalBytesSent wire
        = wire ++ (List.replicate fuel (data.take 2)).flatten := by
  have hw : wrapInt32 (data.length : Int) = data.length :=
    wrapInt32_of_small _ (by omega) (by omega)
  have hmin : min 2 data.length = 2 := Nat.min_eq_left htwo
  intro fuel
  induction fuel with
  | zero =>
    intro call total wire _
    simp only [sendDataWire, List.replicate_zero, List.flatten_nil, List.append_nil]
  | succ fuel ih =>
    intro call total wire heven
    have hne : total ≠ (data.length : Int) := by omega
    have h2 : wrapInt32 (2 : Int) = 2 := by decide
    have ht : (2 : Int).toNat = 2 := rfl
    have hnext : wrapInt32 (total + 2) % 2 = 0 := by
      unfold wrapInt32
      omega
    rw [sendDataWire]
    simp only [hw, ne_eq, hne, not_false_eq_true, if_true, twoByteTransport, hmin, Nat.cast_ofNat,
      h2, ht]
    rw [if_neg (by decide), ih _ _ _ hnext, List.replicate_succ, List.flatten_cons,
      List.append_assoc]

/-- On the transport that takes two bytes per call, the loop of `sendData` never ends when the
buffer has an odd length: the count of bytes sent stays even and never equals the length. -/
theorem sendDataLoop_odd_never (data : Str) (hodd : data.length % 2 = 1)
    (htwo : 2 ≤ data.length) (hlen : data.length < 2147483648) :
    ∀ (fuel call : Nat) (totalBytesSent : Int) (wire : Str), totalBytesSent % 2 = 0 →
      sendDataLoop twoByteTransport data fuel call totalBytesSent wire = none := by
  have hw : wrapInt32 (data.length : Int) = data.length :=
    wrapInt32_of_small _ (by omega) (by omega)
  have hmin : min 2 data.length = 2 := Nat.min_eq_left htwo
  intro fuel
  induction fuel with
  | zero => intro call total wire _; rfl
  | succ fuel ih =>
    intro call total wire heven
    have hne : total ≠ (data.length : Int) := by omega
    have h2 : wrapInt32 (2 : Int) = 2 := by decide
    have hnext : wrapInt32 (total + 2) % 2 = 0 := by
      unfold wrapInt32
      omega
    rw [sendDataLoop]
    simp only [hw, ne_eq, hne, not_false_eq_true, if_true, twoByteTransport, hmin, Nat.cast_ofNat,
      h2]
    rw [if_neg (by decide)]
    exact ih _ _ _ hnext

/-- On that transport, a run whose first call of `sendData` has a buffer of odd length never gets
past this call: the first two bytes of the buffer go on the wire again and again, and no later
call is made, in particular no `close`. -/
theorem perform_slow_odd (src : Int) (data : Str) (rest : List Event) (outcome : Outcome)
    (fuel : Nat) (hodd : data.length % 2 = 1) (htwo : 2 ≤ data.length)
    (hlen : data.length < 2147483648) :
    Run.perform slowTransport fuel ⟨.sendData src data :: rest, outcome⟩
      = ⟨(List.replicate fuel (data.take 2)).flatten, [], .hangs⟩ := by
  have hs : sendData (slowTransport 0) data fuel = none :=
    sendDataLoop_odd_never data hodd htwo hlen fuel 0 0 [] (by decide)
  have hwire : sendDataWire (slowTransport 0) data fuel 0 0 []
      = (List.replicate fuel (data.take 2)).flatten := by
    have h := sendDataWire_odd data hodd htwo hlen fuel 0 0 [] (by decide)
    rw [List.nil_append] at h
    exact h
  unfold Run.perform
  rw [Run.performFrom, hs]
  simp only [hwire, List.nil_append]

/-! ## C12 -/

/-- When `fs::exists` returns false for the resolved path of an accepted request, and `send`
takes every buffer whole, the bytes on the connection are the status line
`HTTP/1.0 404 PAGE NOT FOUND`, `Content-length: 178`, `Content-Type: text/html`, the blank line
and the fixed HTML body, whose length is 178; the connection is then closed. -/
theorem handleClient_not_found (stack : Nat) (fs : FileSystem) (dir : Str) (client_sock : Int)
    (request : Str) (transport : Transport) (n : Nat)
    (hacc : regexFormatCorrect request = true)
    (hmiss : fsExists fs (dir ++ getFileRequest request) = some false)
    (hwhole : ∀ k size, transport k 0 size = size) :
    handleClient stack fs dir client_sock (some request)
        = ⟨[.sendData client_sock ("HTTP/1.0 404 PAGE NOT FOUND\r\n".toList
              ++ ("Content-length: ".toList ++ to_string notFoundBody.length ++ "\r\n".toList)
              ++ "Content-Type: text/html\r\n\r\n".toList),
            .sendData client_sock notFoundBody, .close client_sock], .returned⟩ ∧
      (handleClient stack fs dir client_sock (some request)).perform transport (n + 2)
        = ⟨"HTTP/1.0 404 PAGE NOT FOUND\r\n".toList ++ "Content-length: 178\r\n".toList
            ++ "Content-Type: text/html\r\n\r\n".toList ++ notFoundBody, [client_sock],
            .returned⟩ ∧
      to_string notFoundBody.length = "178".toList ∧
      notFoundBody.length = 178 := by
  have hrun : handleClient stack fs dir client_sock (some request)
      = ⟨[.sendData client_sock ("HTTP/1.0 404 PAGE NOT FOUND\r\n".toList
            ++ ("Content-length: ".toList ++ to_string notFoundBody.length ++ "\r\n".toList)
            ++ "Content-Type: text/html\r\n\r\n".toList),
          .sendData client_sock notFoundBody, .close client_sock], .returned⟩ := by
    simp only [handleClient, hacc, hmiss, Bool.not_true, Bool.false_eq_true, if_false]
    rfl
  have hhead : ("HTTP/1.0 404 PAGE NOT FOUND\r\n".toList
      ++ ("Content-length: ".toList ++ to_string notFoundBody.length ++ "\r\n".toList)
      ++ "Content-Type: text/html\r\n\r\n".toList).length < 2147483648 := by
    rw [to_string_notFoundBody_length]
    decide
  have hbody : notFoundBody.length < 2147483648 := by
    rw [notFoundBody_length]
    decide
  refine ⟨hrun, ?_, to_string_notFoundBody_length, notFoundBody_length⟩
  rw [hrun]
  unfold Run.perform
  rw [performFrom_sendData_whole transport n _ _ _ _ _ _ hwhole hhead,
    performFrom_sendData_whole transport n _ _ _ _ _ _ hwhole hbody,
    performFrom_close, performFrom_nil, to_string_notFoundBody_length]
  rfl

set_option maxRecDepth 8000 in
/-- C12: the request `GET /` followed by 256 letters `a` and ` HTTP/1.0` is accepted, and no file
of that name exists, since no name can be that long; the lookup of line 397 fails with the error
of a name too long, `fs::exists` throws, and the iteration ends there: nothing is put on the
connection and the connection is not closed, on any transport. And on the transport that takes
two bytes per call, never failing, the request for the missing `/missing.html` never gets to the
end of its first call of `sendData`, whose buffer has 77 bytes: the bytes `HT` go on the
connection again and again, and the connection is not closed. -/
theorem missing_path_not_answered :
    ((∀ s ∈ ['/' :: List.replicate 256 'a'], Segment s) ∧
      regexFormatCorrect ("GET ".toList ++ ['/' :: List.replicate 256 'a'].flatten
        ++ " HTTP/1.0\r\n".toList ++ "\r\n".toList) = true ∧
      "WWW".toList ++ getFileRequest ("GET ".toList ++ ['/' :: List.replicate 256 'a'].flatten
        ++ " HTTP/1.0\r\n".toList ++ "\r\n".toList)
        = "WWW/".toList ++ List.replicate 256 'a' ∧
      longNameFS ("WWW/".toList ++ List.replicate 256 'a') = some .fault ∧
      fsExists longNameFS ("WWW/".toList ++ List.replicate 256 'a') = none ∧
      handleClient defaultStack longNameFS "WWW".toList 4
          (some ("GET ".toList ++ ['/' :: List.replicate 256 'a'].flatten
            ++ " HTTP/1.0\r\n".toList ++ "\r\n".toList))
        = ⟨[], .threw⟩ ∧
      ∀ (transport : Transport) (fuel : Nat),
        (handleClient defaultStack longNameFS "WWW".toList 4
          (some ("GET ".toList ++ ['/' :: List.replicate 256 'a'].flatten
            ++ " HTTP/1.0\r\n".toList ++ "\r\n".toList))).perform transport fuel
          = ⟨[], [], .threw⟩) ∧
    (regexFormatCorrect "GET /missing.html HTTP/1.0\r\n\r\n".toList = true ∧
      fsExists emptyFS ("WWW".toList ++ getFileRequest "GET /missing.html HTTP/1.0\r\n\r\n".toList)
        = some false ∧
      (∀ k j size, 2 ≤ size → 1 ≤ slowTransport k j size ∧ slowTransport k j size ≤ size) ∧
      ∀ fuel : Nat,
        (handleClient defaultStack emptyFS "WWW".toList 4
          (some "GET /missing.html HTTP/1.0\r\n\r\n".toList)).perform slowTransport fuel
          = ⟨(List.replicate fuel "HT".toList).flatten, [], .hangs⟩) := by
  have hsegs : ∀ s ∈ ['/' :: List.replicate 256 'a'], Segment s := by
    intro s hs
    rw [List.mem_singleton.mp hs]
    refine ⟨List.replicate 256 'a', rfl, ?_⟩
    intro c hc
    rw [List.eq_of_mem_replicate hc]
    exact Or.inl (by decide)
  have hacc := regexFormatCorrect_get ['/' :: List.replicate 256 'a'] "\r\n".toList hsegs
  have hget := getFileRequest_get ['/' :: List.replicate 256 'a'] "\r\n".toList hsegs
  have hpath : "WWW".toList ++ ['/' :: List.replicate 256 'a'].flatten
      = "WWW/".toList ++ List.replicate 256 'a' := by
    simp only [List.flatten_cons, List.flatten_nil, List.append_nil]
    rfl
  have hfault : fsExists longNameFS ("WWW/".toList ++ List.replicate 256 'a') = none := by
    decide
  have hrun : handleClient defaultStack longNameFS "WWW".toList 4
      (some ("GET ".toList ++ ['/' :: List.replicate 256 'a'].flatten
        ++ " HTTP/1.0\r\n".toList ++ "\r\n".toList)) = ⟨[], .threw⟩ := by
    simp only [handleClient, hacc, hget, hpath, hfault, Bool.not_true, Bool.false_eq_true,
      if_false]
    rfl
  refine ⟨⟨hsegs, hacc, by rw [hget, hpath], by decide, hfault, hrun, ?_⟩,
    ⟨by decide, by decide, ?_, ?_⟩⟩
  · intro transport fuel
    rw [hrun]
    rfl
  · intro k j size hsize
    simp only [slowTransport, twoByteTransport]
    omega
  · intro fuel
    have hrun2 : handleClient defaultStack emptyFS "WWW".toList 4
        (some "GET /missing.html HTTP/1.0\r\n\r\n".toList)
        = ⟨.sendData 4 ("HTTP/1.0 404 PAGE NOT FOUND\r\n".toList
              ++ "Content-length: 178\r\n".toList ++ "Content-Type: text/html\r\n\r\n".toList)
            :: [.sendData 4 notFoundBody, .close 4], .returned⟩ := by
      decide
    rw [hrun2]
    exact perform_slow_odd 4 _ _ _ fuel (by decide) (by decide) (by decide)

/-! ## C9 -/

set_option maxRecDepth 20000 in
/-- C9: the file `WWW/my.photo.png` is served, and its extension is `png`, but the header sent for
it holds the line `Content-Type: text/photo charset=iso-8859-1` and not `Content-Type: image/png`:
the extension that selects the content type is the one `getFileExtension` computes, here `photo`,
the text between the first and the second dot of the path. In the same way `logo.png` under the
document root `./WWW` is sent with `Content-Type: text//WWW/logo charset=iso-8859-1`. The bytes on
the connection are those of a transport that takes every buffer whole. -/
theorem image_served_as_text :
    (regexFormatCorrect "GET /my.photo.png HTTP/1.0\r\n\r\n".toList = true ∧
      "WWW".toList ++ getFileRequest "GET /my.photo.png HTTP/1.0\r\n\r\n".toList
        = "WWW/my.photo.png".toList ∧
      photoFS "WWW/my.photo.png".toList = some (.file "PNG".toList) ∧
      fileName "WWW/my.photo.png".toList = "my.photo.png".toList ∧
      specExtension "WWW/my.photo.png".toList = "png".toList ∧
      getFileExtension "WWW/my.photo.png".toList = "photo".toList ∧
      handleClient defaultStack photoFS "WWW".toList 4
          (some "GET /my.photo.png HTTP/1.0\r\n\r\n".toList)
        = ⟨[.sendData 4 ("HTTP/1.0 200 OK\r\n".toList ++ "Content-length: 3\r\n".toList
              ++ "Content-Type: text/photo charset=iso-8859-1\r\n\r\n".toList),
            .sendData 4 "PNG".toList, .close 4], .returned⟩ ∧
      (handleClient defaultStack photoFS "WWW".toList 4
          (some "GET /my.photo.png HTTP/1.0\r\n\r\n".toList)).perform wholeTransport 2
        = ⟨"HTTP/1.0 200 OK\r\n".toList ++ "Content-length: 3\r\n".toList
            ++ "Content-Type: text/photo charset=iso-8859-1\r\n\r\n".toList ++ "PNG".toList,
            [4], .returned⟩ ∧
      specContentTypeLine "png".toList = "Content-Type: image/png".toList ∧
      ¬ (specContentTypeLine "png".toList
          <:+: ((handleClient defaultStack photoFS "WWW".toList 4
            (some "GET /my.photo.png HTTP/1.0\r\n\r\n".toList)).perform wholeTransport 2).wire)) ∧
    (regexFormatCorrect "GET /logo.png HTTP/1.0\r\n\r\n".toList = true ∧
      "./WWW".toList ++ getFileRequest "GET /logo.png HTTP/1.0\r\n\r\n".toList
        = "./WWW/logo.png".toList ∧
      photoFS "./WWW/logo.png".toList = some (.file "PNG".toList) ∧
      fileName "./WWW/logo.png".toList = "logo.png".toList ∧
      specExtension "./WWW/logo.png".toList = "png".toList ∧
      getFileExtension "./WWW/logo.png".toList = "/WWW/logo".toList ∧
      (handleClient defaultStack photoFS "./WWW".toList 4
          (some "GET /logo.png HTTP/1.0\r\n\r\n".toList)).perform wholeTransport 2
        = ⟨"HTTP/1.0 200 OK\r\n".toList ++ "Content-length: 3\r\n".toList
            ++ "Content-Type: text//WWW/logo charset=iso-8859-1\r\n\r\n".toList ++ "PNG".toList,
            [4], .returned⟩ ∧
      ¬ (specContentTypeLine "png".toList
          <:+: ((handleClient defaultStack photoFS "./WWW".toList 4
            (some "GET /logo.png HTTP/1.0\r\n\r\n".toList)).perform wholeTransport 2).wire)) := by
  refine ⟨⟨by decide, by decide, by decide, by decide, by decide, by decide, by decide, by decide,
    by decide, by decide⟩, ⟨by decide, by decide, by decide, by decide, by decide, by decide,
    by decide, by decide⟩⟩

/-! ## C11 -/

end ToreroServe
